import Mathlib

/-!
# grlx: recipe → ingredient state-convergence engine

A shallow embedding of the Go sources

* `ingredients/file/file.go` (the `File` ingredient and `stringSliceIsSubset`),
* `ingredients/ingredients.go` (the ingredient registry),
* `cook/cookrecipes.go` (`getIncludes`, `collectAllIncludes`),

followed by theorems about them.

Conventions of the embedding:

* a Go `string` is a Lean `String`; Go compares strings bytewise, which for
  valid UTF-8 is the lexicographic order of the code points, i.e. the
  order of `String.data`;
* a Go `map[string]interface{}` is an association list looked up with
  `List.lookup`; a dynamic value is a `Value`;
* a Go `(T, error)` result is a pair with an `Option Error` (`none` is `nil`);
* the operating system (package `os`, `os/user`, `path/filepath.WalkDir`) and
  the file provider of `cached` are not part of the repository: they are the
  fields of a record `Sys σ π`, where `σ` is the state of the outside world.
-/

namespace Grlx

/-! ## Dynamic values and parameter maps -/

/-- A Go `interface{}` value as produced by the YAML/JSON decoders. `other`
stands for a value of any further dynamic type, named by its `%T` text. -/
inductive Value where
  | null
  | str (s : String)
  | bool (b : Bool)
  | int (n : Int)
  | list (xs : List Value)
  | map (kvs : List (String × Value))
  | other (goType : String)

/-- A Go `map[string]interface{}`. -/
abbrev Params := List (String × Value)

/-- The type assertion `v.(string)` on the result of a map lookup, in its
two-valued form `s, ok := m[k].(string)`. -/
def assertString : Option Value → String × Bool
  | some (Value.str s) => (s, true)
  | _ => ("", false)

/-- The type assertion `b, ok := m[k].(bool)`. -/
def assertBool : Option Value → Bool × Bool
  | some (Value.bool b) => (b, true)
  | _ => (false, false)

/-- The text `fmt` prints for `%T` of a dynamic value. -/
def Value.typeName : Value → String
  | Value.null => "<nil>"
  | Value.str _ => "string"
  | Value.bool _ => "bool"
  | Value.int _ => "int"
  | Value.list _ => "[]interface \x7b\x7d"
  | Value.map _ => "map[string]interface \x7b\x7d"
  | Value.other t => t

/-! ## Errors and results (package `types`) -/

/-- The error values the embedded code returns. The `Err…` constructors are the
sentinel errors of packages `types`, `ingredients` and `os`; `errorf` is an
error built in place by `fmt.Errorf`/`errors.New` with the given text;
`external` is any other error reported by the operating system or a library.
An error that wraps a sentinel is the sentinel's constructor, so that
`errors.Is(err, sentinel)` is equality with it. -/
inductive Error where
  | ErrMissingName
  | ErrDeleteRoot
  | ErrModifyRoot
  | ErrMissingHash
  | ErrFileNotFound
  | ErrNotExist
  | ErrUnknownIngredient
  | ErrUnknownMethod
  | errorf (msg : String)
  | external (msg : String)
  deriving DecidableEq, Repr

/-- Record `types.Result`. `Notes` is a slice: `none` is the `nil` slice. -/
structure Result where
  Succeeded : Bool := false
  Failed : Bool := false
  Changed : Bool := false
  Notes : Option (List String) := none
  deriving DecidableEq, Repr

/-! ## `path/filepath` and `strconv` -/

/-- Split a path at every `/`. -/
def splitSlash : List Char → List (List Char)
  | [] => [[]]
  | c :: cs =>
    if c = '/' then [] :: splitSlash cs
    else
      match splitSlash cs with
      | [] => [[c]]
      | h :: t => (c :: h) :: t

/-- One path element of `filepath.Clean`; `stack` holds the elements kept so far,
last one first. -/
def cleanStep (rooted : Bool) (stack : List (List Char)) (elem : List Char) :
    List (List Char) :=
  if elem = [] ∨ elem = ['.'] then stack
  else if elem = ['.', '.'] then
    match stack with
    | [] => if rooted then [] else [elem]
    | top :: rest =>
      if top = ['.', '.'] then (if rooted then stack else elem :: stack) else rest
  else elem :: stack

/-- Join path elements with `/`. -/
def joinSlash : List (List Char) → List Char
  | [] => []
  | [e] => e
  | e :: es => e ++ '/' :: joinSlash es

/-- Function `filepath.Clean` on the characters of a Unix path: empty elements
and `.` are dropped, `..` removes the element before it (at the root it is
dropped, at the start of a relative path it is kept), and the empty result is
`.`. -/
def cleanChars (path : List Char) : List Char :=
  match path with
  | [] => ['.']
  | c :: _ =>
    let rooted : Bool := c = '/'
    let kept := ((splitSlash path).foldl (cleanStep rooted) []).reverse
    let out := (if rooted then ['/'] else []) ++ joinSlash kept
    if out = [] then ['.'] else out

/-- Function `filepath.Clean`. -/
def filepathClean (path : String) : String := String.mk (cleanChars path.data)

/-- Function `filepath.Join` of two elements: empty elements are ignored and the
result is cleaned; joining nothing but empty elements gives `""`. -/
def filepathJoin (a b : String) : String :=
  if a ≠ "" then filepathClean (String.mk (a.data ++ '/' :: b.data))
  else if b ≠ "" then filepathClean b
  else ""

/-- The digit value `strconv.ParseUint` gives a byte, if any. -/
def digitVal (c : Char) : Option Nat :=
  if '0' ≤ c ∧ c ≤ '9' then some (c.toNat - '0'.toNat)
  else if 'a' ≤ c ∧ c ≤ 'z' then some (c.toNat - 'a'.toNat + 10)
  else if 'A' ≤ c ∧ c ≤ 'Z' then some (c.toNat - 'A'.toNat + 10)
  else none

/-- The digit loop of `strconv.ParseUint` for an explicit base: `n` is the value
read so far. -/
def parseUintLoop (base maxVal : Nat) : List Char → Nat → Nat × Option Error
  | [], n => (n, none)
  | c :: cs, n =>
    match digitVal c with
    | none => (0, some (Error.external "invalid syntax"))
    | some d =>
      if d ≥ base then (0, some (Error.external "invalid syntax"))
      else if n ≥ (2 ^ 64 - 1) / base + 1 then
        (maxVal, some (Error.external "value out of range"))
      else
        let n1 := (n * base + d) % 2 ^ 64
        if n1 < n * base ∨ n1 > maxVal then
          (maxVal, some (Error.external "value out of range"))
        else parseUintLoop base maxVal cs n1

/-- Function `strconv.ParseUint(s, base, bitSize)` for `2 ≤ base ≤ 36` and
`1 ≤ bitSize ≤ 64`: the value is `0` on a syntax error and the largest
`bitSize`-bit value on a range error. -/
def parseUint (s : String) (base bitSize : Nat) : Nat × Option Error :=
  if s = "" then (0, some (Error.external "invalid syntax"))
  else parseUintLoop base (2 ^ bitSize - 1) s.data 0

/-! ## The outside world -/

/-- What the code reads of an `os.FileInfo`. -/
structure FileInfo where
  IsDir : Bool
  deriving DecidableEq, Repr

/-- The operating system and the file provider, as the embedded code uses them.
`σ` is the state of the outside world (filesystem, cache, remote sources) and
`π` the type of the provider `NewFileProvider` returns. A call that can change
the world returns the new world next to its error; `Stat`, the lookups,
`WalkDir` and `Verify` only observe it. `WalkDir w root` lists the paths on which
`filepath.WalkDir` invokes its callback, in order. `CacheDir` is
`config.CacheDir`; `ErrorText` is the method `Error()` of an error. -/
structure Sys (σ π : Type) where
  CacheDir : String
  ErrorText : Error → String
  Stat : σ → String → Except Error FileInfo
  Remove : σ → String → σ × Option Error
  MkdirAll : σ → String → Nat → σ × Option Error
  Lookup : σ → String → Except Error String
  LookupGroup : σ → String → Except Error String
  Chown : σ → String → Int → Int → σ × Option Error
  Chmod : σ → String → Nat → σ × Option Error
  WalkDir : σ → String → List String
  NewFileProvider : String → String → String → String → Params → Except Error π
  Verify : σ → π → Bool × Option Error
  Download : σ → π → σ × Option Error
  Describe : π → String

/-- What a `Test`/`Apply` call leaves behind: the returned `types.Result`, the
returned error, and the world after the call. -/
structure Ret (σ : Type) where
  res : Result
  err : Option Error
  world : σ

/-! ## The `File` ingredient (`ingredients/file/file.go`) -/

/-- Type `File`. -/
structure File where
  id : String
  method : String
  params : Params

/-- The literal `types.Result{Succeeded: false, Failed: true}`. -/
def failed : Result := { Succeeded := false, Failed := true }

variable {σ π : Type}

/-- Method `File.Parse`. -/
def File.Parse (_f : File) (id method : String) (params : Params) : Except Error File :=
  Except.ok { id := id, method := method, params := params }

/-- Method `File.undef`. -/
def File.undef (f : File) (w : σ) : Ret σ :=
  { res := { Succeeded := false, Failed := true, Changed := false, Notes := none },
    err := some (Error.errorf ("method " ++ f.method ++ " undefined")),
    world := w }

/-- Method `File.absent`. -/
def File.absent (sys : Sys σ π) (f : File) (test : Bool) (w : σ) : Ret σ :=
  let (name, ok) := assertString (f.params.lookup "name")
  if !ok then { res := failed, err := some Error.ErrMissingName, world := w }
  else
    let name := filepathClean name
    if name = "" then { res := failed, err := some Error.ErrMissingName, world := w }
    else if name = "/" then { res := failed, err := some Error.ErrDeleteRoot, world := w }
    else
      match sys.Stat w name with
      | Except.error e =>
        if e = Error.ErrNotExist then
          { res := { Succeeded := true, Failed := false, Changed := false, Notes := none },
            err := none, world := w }
        else { res := failed, err := some e, world := w }
      | Except.ok _ =>
        if test then
          { res := { Succeeded := true, Failed := false, Changed := true, Notes := none },
            err := none, world := w }
        else
          match sys.Remove w name with
          | (w1, some e) => { res := failed, err := some e, world := w1 }
          | (w1, none) =>
            { res := { Succeeded := true, Failed := false, Changed := true,
                       Notes := some ["removed " ++ name] },
              err := none, world := w1 }

/-- Method `File.cached`. -/
def File.cached (sys : Sys σ π) (f : File) (test : Bool) (w : σ) : Ret σ :=
  let (source, ok) := assertString (f.params.lookup "source")
  if !ok || source == "" then
    { res := failed, err := some (Error.errorf "source not defined"), world := w }
  else
    let (hash, ok) := assertString (f.params.lookup "hash")
    if !ok || hash == "" then
      { res := failed, err := some (Error.errorf "hash not defined"), world := w }
    else
      let cacheDest := filepathJoin sys.CacheDir hash
      match sys.NewFileProvider f.id source cacheDest hash f.params with
      | Except.error e => { res := failed, err := some e, world := w }
      | Except.ok fp =>
        let (valid, errVal) := sys.Verify w fp
        if errVal ≠ none ∧ errVal ≠ some Error.ErrFileNotFound then
          { res := failed, err := errVal, world := w }
        else if !valid then
          if test then
            { res := { Succeeded := true, Failed := false, Changed := true,
                       Notes := some [sys.Describe fp] },
              err := none, world := w }
          else
            match sys.Download w fp with
            | (w1, some e) => { res := failed, err := some e, world := w1 }
            | (w1, none) =>
              { res := { Succeeded := true, Failed := false, Changed := true,
                         Notes := some [sys.Describe fp] },
                err := none, world := w1 }
        else
          { res := { Succeeded := true, Failed := false, Changed := false },
            err := none, world := w }

/-- The callback loop of `filepath.WalkDir(name, …os.Chown(path, uid, gid)…)`: the
paths are chowned in order and the first error stops the walk. -/
def chownWalk (sys : Sys σ π) (uid gid : Int) : List String → σ → σ × Option Error
  | [], w => (w, none)
  | p :: ps, w =>
    match sys.Chown w p uid gid with
    | (w1, some e) => (w1, some e)
    | (w1, none) => chownWalk sys uid gid ps w1

/-- The block of `File.directory` that chowns the directory to the user named by
`user`: the world it leaves and the error it returns with, if any. -/
def directoryUser (sys : Sys σ π) (f : File) (name : String) (w : σ) : σ × Option Error :=
  match assertString (f.params.lookup "user") with
  | (val, true) =>
    match sys.Lookup w val with
    | Except.error lookupErr => (w, some lookupErr)
    | Except.ok uidText =>
      match parseUint uidText 10 32 with
      | (_, some parseErr) => (w, some parseErr)
      | (uid, none) =>
        match sys.Chown w name (uid : Int) (-1) with
        | (w1, some chownErr) => (w1, some chownErr)
        | (w1, none) =>
          match assertBool (f.params.lookup "recurse") with
          | (true, true) => chownWalk sys (uid : Int) (-1) (sys.WalkDir w1 name) w1
          | _ => (w1, none)
  | _ => (w, none)

/-- The block of `File.directory` that chowns the directory to the group named by
`group`; the source has it twice. -/
def directoryGroup (sys : Sys σ π) (f : File) (name : String) (w : σ) : σ × Option Error :=
  match assertString (f.params.lookup "group") with
  | (val, true) =>
    match sys.LookupGroup w val with
    | Except.error lookupErr => (w, some lookupErr)
    | Except.ok gidText =>
      match parseUint gidText 10 32 with
      | (_, some parseErr) => (w, some parseErr)
      | (gid, none) =>
        match sys.Chown w name (-1) (gid : Int) with
        | (w1, some chownErr) => (w1, some chownErr)
        | (w1, none) =>
          match assertBool (f.params.lookup "recurse") with
          | (true, true) => chownWalk sys (-1) (gid : Int) (sys.WalkDir w1 name) w1
          | _ => (w1, none)
  | _ => (w, none)

/-- The blocks of `File.directory` that chmod the directory to the mode given by
the param `key` (`dir_mode`, then `file_mode`); the error of `ParseUint` is
discarded. -/
def directoryMode (sys : Sys σ π) (f : File) (key name : String) (w : σ) : σ × Option Error :=
  match assertString (f.params.lookup key) with
  | (val, true) => sys.Chmod w name (parseUint val 8 32).1
  | _ => (w, none)

/-- The block of `File.directory` that creates the directory when `makedirs` is
true or not a bool. -/
def directoryMake (sys : Sys σ π) (f : File) (name : String) (w : σ) : σ × Option Error :=
  let (val, ok) := assertBool (f.params.lookup "makedirs")
  if ok && val || !ok then sys.MkdirAll w name 0o755 else (w, none)

/-- Method `File.directory`. The flag `test` is not read by the source. -/
def File.directory (sys : Sys σ π) (f : File) (_test : Bool) (w : σ) : Ret σ :=
  let changes : Option (List String) := some []
  let (name, ok) := assertString (f.params.lookup "name")
  if !ok then
    { res := { Succeeded := false, Failed := true, Notes := changes,
               Changed := changes != none },
      err := some Error.ErrMissingName, world := w }
  else
    let name := filepathClean name
    if name = "" then { res := failed, err := some Error.ErrMissingName, world := w }
    else if name = "/" then
      { res := failed, err := some (Error.errorf "refusing to delete root"), world := w }
    else
      match directoryMake sys f name w with
      | (w1, some e) => { res := failed, err := some e, world := w1 }
      | (w1, none) =>
      match directoryUser sys f name w1 with
      | (w2, some e) => { res := failed, err := some e, world := w2 }
      | (w2, none) =>
      match directoryGroup sys f name w2 with
      | (w3, some e) => { res := failed, err := some e, world := w3 }
      | (w3, none) =>
      match directoryMode sys f "dir_mode" name w3 with
      | (w4, some e) => { res := failed, err := some e, world := w4 }
      | (w4, none) =>
      match directoryMode sys f "file_mode" name w4 with
      | (w5, some e) => { res := failed, err := some e, world := w5 }
      | (w5, none) =>
      match directoryGroup sys f name w5 with
      | (w6, some e) => { res := failed, err := some e, world := w6 }
      | (w6, none) => f.undef w6

/-- Method `File.exists`. -/
def File.exists (sys : Sys σ π) (f : File) (_test : Bool) (w : σ) : Ret σ :=
  let (name, ok) := assertString (f.params.lookup "name")
  if !ok then { res := failed, err := some Error.ErrMissingName, world := w }
  else
    let name := filepathClean name
    if name = "" then
      { res := { Succeeded := false, Failed := true, Changed := false, Notes := none },
        err := some Error.ErrMissingName, world := w }
    else
      match sys.Stat w name with
      | Except.error e =>
        if e = Error.ErrNotExist then
          { res := { Succeeded := false, Failed := true, Changed := false,
                     Notes := some ["file or directory " ++ "\x60" ++ name ++ "\x60" ++
                       " does not exist"] },
            err := none, world := w }
        else
          { res := { Succeeded := false, Failed := true, Changed := false,
                     Notes := some ["error checking if file or directory " ++ "\x60" ++ name ++
                       "\x60" ++ " exists: " ++ sys.ErrorText e] },
            err := some e, world := w }
      | Except.ok _ =>
        { res := { Succeeded := true, Failed := false, Changed := false,
                   Notes := some ["file " ++ name ++ " exists"] },
          err := none, world := w }

/-- Method `File.missing`. -/
def File.missing (sys : Sys σ π) (f : File) (_test : Bool) (w : σ) : Ret σ :=
  let (name, ok) := assertString (f.params.lookup "name")
  if !ok then { res := failed, err := some Error.ErrMissingName, world := w }
  else
    let name := filepathClean name
    if name = "" then
      { res := { Succeeded := false, Failed := true, Changed := false, Notes := none },
        err := some Error.ErrMissingName, world := w }
    else
      match sys.Stat w name with
      | Except.error e =>
        if e = Error.ErrNotExist then
          { res := { Succeeded := true, Failed := false, Changed := false,
                     Notes := some ["file " ++ "\x60" ++ name ++ "\x60" ++ " is missing"] },
            err := none, world := w }
        else
          { res := { Succeeded := false, Failed := true, Changed := false,
                     Notes := some ["error checking file " ++ "\x60" ++ name ++ "\x60" ++
                       " is missing: " ++ sys.ErrorText e] },
            err := some e, world := w }
      | Except.ok _ =>
        { res := { Succeeded := false, Failed := true, Changed := false,
                   Notes := some ["file " ++ "\x60" ++ name ++ "\x60" ++ " is not missing"] },
          err := none, world := w }

/-- Method `File.prepend`. -/
def File.prepend (f : File) (_test : Bool) (w : σ) : Ret σ :=
  let (name, ok) := assertString (f.params.lookup "name")
  if !ok then { res := failed, err := some Error.ErrMissingName, world := w }
  else
    let name := filepathClean name
    if name = "" then { res := failed, err := some Error.ErrMissingName, world := w }
    else if name = "/" then { res := failed, err := some Error.ErrModifyRoot, world := w }
    else f.undef w

/-- Method `File.content`: the source returns `f.undef()` in its first statement;
the name checks written after it are never reached. -/
def File.content (f : File) (_test : Bool) (w : σ) : Ret σ := f.undef w

/-- Method `File.managed`: returns `f.undef()` in its first statement. -/
def File.managed (f : File) (_test : Bool) (w : σ) : Ret σ := f.undef w

/-- Method `File.symlink`: returns `f.undef()` in its first statement. -/
def File.symlink (f : File) (_test : Bool) (w : σ) : Ret σ := f.undef w

/-- Modelled from the spec: method `File.append` is called by `Test` and `Apply`
but its body is not among the sources. The spec lists `append` with the
methods whose convergence semantics are unimplemented placeholders that report
a method-not-implemented failure, which the source spells `f.undef()`. -/
def File.append (f : File) (_test : Bool) (w : σ) : Ret σ := f.undef w

/-- Modelled from the spec: method `File.touch` is called by `Test` and `Apply`
but its body is not among the sources; the spec lists it as an unimplemented
placeholder like `append`. -/
def File.touch (f : File) (_test : Bool) (w : σ) : Ret σ := f.undef w

/-- Modelled from the spec: method `File.contains` is called by `Test` and `Apply`
(which drop its second result) but its body is not among the sources; the spec
lists it as an unimplemented placeholder like `append`. -/
def File.contains (f : File) (_test : Bool) (w : σ) : Ret σ := f.undef w

/-- Method `File.Test`. -/
def File.Test (sys : Sys σ π) (f : File) (w : σ) : Ret σ :=
  match f.method with
  | "absent" => f.absent sys true w
  | "append" => f.append true w
  | "directory" => f.directory sys true w
  | "exists" => f.exists sys true w
  | "missing" => f.missing sys true w
  | "prepend" => f.prepend true w
  | "touch" => f.touch true w
  | "cached" => f.cached sys true w
  | "contains" => f.contains true w
  | "content" => f.content true w
  | "managed" => f.managed true w
  | "symlink" => f.symlink true w
  | _ => f.undef w

/-- Method `File.Apply`. -/
def File.Apply (sys : Sys σ π) (f : File) (w : σ) : Ret σ :=
  match f.method with
  | "absent" => f.absent sys false w
  | "append" => f.append false w
  | "directory" => f.directory sys false w
  | "exists" => f.exists sys false w
  | "missing" => f.missing sys false w
  | "prepend" => f.prepend false w
  | "touch" => f.touch false w
  | "cached" => f.cached sys false w
  | "contains" => f.contains false w
  | "content" => f.content false w
  | "managed" => f.managed false w
  | "symlink" => f.symlink false w
  | _ =>
    { res := { Succeeded := false, Failed := true, Changed := false, Notes := none },
      err := some (Error.errorf ("method " ++ f.method ++ " undefined")),
      world := w }

/-- Method `File.Methods`. -/
def File.Methods (_f : File) : String × List String :=
  ("file", ["absent", "append", "cached", "contains", "content", "directory", "managed",
    "missing", "prepend", "exists", "symlink", "touch"])

/-- Function `stringSliceIsSubset`, as a loop over the two remaining slices and
the slice `missing`. The last branch is the case `a[0] > b[0]`: the three
comparisons of the source exhaust a total order. -/
def stringSliceIsSubsetLoop : List String → List String → List String → Bool × List String
  | [], _, missing => (missing.length == 0, missing)
  | a0 :: a, [], missing => ((missing ++ a0 :: a).length == 0, missing ++ a0 :: a)
  | a0 :: a, b0 :: b, missing =>
    if a0 = b0 then stringSliceIsSubsetLoop a b missing
    else if a0.data < b0.data then
      if (a0 :: a).length = 1 then ((missing ++ [a0]).length == 0, missing ++ [a0])
      else stringSliceIsSubsetLoop a b (missing ++ [a0])
    else stringSliceIsSubsetLoop (a0 :: a) b missing

/-- Function `stringSliceIsSubset`. -/
def stringSliceIsSubset (a b : List String) : Bool × List String :=
  stringSliceIsSubsetLoop a b []

/-- A slice of strings is sorted as `sort.Strings` leaves it. -/
def SortedStrings (l : List String) : Prop := l.Pairwise (fun x y => x.data ≤ y.data)

instance (l : List String) : Decidable (SortedStrings l) := by
  unfold SortedStrings; infer_instance

/-- The loop of `stringSliceIsSubset` run for at most `fuel` iterations, with the
four cases of the `switch` as the source has them; when no case applies the
iteration leaves `a`, `b` and `missing` as they are. The result is `none` when
the fuel runs out before the loop returns. -/
def stringSliceIsSubsetSteps :
    Nat → List String → List String → List String → Option (Bool × List String)
  | 0, _, _, _ => none
  | _ + 1, [], _, missing => some (missing.length == 0, missing)
  | _ + 1, a0 :: a, [], missing =>
    some ((missing ++ a0 :: a).length == 0, missing ++ a0 :: a)
  | fuel + 1, a0 :: a, b0 :: b, missing =>
    if a0 = b0 then stringSliceIsSubsetSteps fuel a b missing
    else if a0.data < b0.data then
      if (a0 :: a).length = 1 then some ((missing ++ [a0]).length == 0, missing ++ [a0])
      else stringSliceIsSubsetSteps fuel a b (missing ++ [a0])
    else if b0.data < a0.data then stringSliceIsSubsetSteps fuel (a0 :: a) b missing
    else stringSliceIsSubsetSteps fuel (a0 :: a) (b0 :: b) missing

/-! ## The ingredient registry (`ingredients/ingredients.go`) -/

/-- The part of interface `types.RecipeCooker` the registry uses, for cookers of
type `C`. -/
structure CookerOps (C : Type) where
  Methods : C → String × List String
  Parse : C → String → String → Params → Except Error C

/-- The variable `ingMap`: ingredient → method → prototype. -/
abbrev Registry (C : Type) := String → Option (String → Option C)

/-- The registry after `init`: `make(map…)`. -/
def emptyRegistry (C : Type) : Registry C := fun _ => none

/-- The assignment `ingMap[name][method] = step`. -/
def setMethod {C : Type} (ingMap : Registry C) (name method : String) (step : C) :
    Registry C :=
  fun k =>
    if k = name then
      (ingMap k).map (fun r => fun m => if m = method then some step else r m)
    else ingMap k

/-- Function `RegisterAllMethods`; the registry is passed in and returned. -/
def RegisterAllMethods {C : Type} (ops : CookerOps C) (ingMap : Registry C) (step : C) :
    Registry C :=
  let (name, methods) := ops.Methods step
  let ingMap1 : Registry C :=
    if (ingMap name).isSome then ingMap
    else fun k => if k = name then some (fun _ => none) else ingMap k
  methods.foldl (fun m method => setMethod m name method step) ingMap1

/-- Function `NewRecipeCooker`; the two `fmt.Printf` calls are left out. -/
def NewRecipeCooker {C : Type} (ops : CookerOps C) (ingMap : Registry C)
    (id ingredient method : String) (params : Params) : Except Error C :=
  match ingMap ingredient with
  | some r =>
    match r method with
    | some ing => ops.Parse ing id method params
    | none => Except.error Error.ErrUnknownMethod
  | none => Except.error Error.ErrUnknownIngredient

/-- The `File` ingredient as a `RecipeCooker`. -/
def fileOps : CookerOps File where
  Methods := File.Methods
  Parse := File.Parse

/-! ## Recipes (`cook/cookrecipes.go`) -/

/-- Type `types.RecipeName`. -/
abbrev RecipeName := String

/-- The assignment `m[k] = v` on a map kept as a list of its entries. -/
def mapAssign {α β : Type} [DecidableEq α] (m : List (α × β)) (k : α) (v : β) :
    List (α × β) :=
  if m.any (fun e => e.1 = k) then m.map (fun e => if e.1 = k then (k, v) else e)
  else m ++ [(k, v)]

/-- Function `collectAllIncludes`. Go leaves the order in which `range` visits
the keys of a map open: `rangeOrder` is that order, as a function of the keys. -/
def collectAllIncludes (rangeOrder : List RecipeName → List RecipeName)
    (starter : List RecipeName) : List RecipeName × Option Error :=
  let includeMap : List (RecipeName × Bool) :=
    starter.foldl (fun m s => mapAssign m s false) []
  let names := (rangeOrder (includeMap.map Prod.fst)).foldl (fun names v => names ++ [v]) []
  (names, none)

/-- The inner loop of `getIncludes` over the elements of the list `i`; `inc`
holds the names read so far. -/
def getIncludesLoop (i : List Value) : List Value → List RecipeName →
    List RecipeName × Option Error
  | [], inc => (inc, none)
  | Value.str t :: vs, inc => getIncludesLoop i vs (inc ++ [t])
  | _ :: _, _ =>
    ([], some (Error.errorf ("include must be a slice of strings, but found type " ++
      (Value.list i).typeName)))

/-- Function `getIncludes`. -/
def getIncludes (recipe : Params) : List RecipeName × Option Error :=
  match recipe.lookup "includes" with
  | some includes =>
    match includes with
    | Value.list i => getIncludesLoop i i []
    | i =>
      ([], some (Error.errorf ("include must be a slice of strings, but found type " ++
        i.typeName)))
  | none => ([], none)

/-- Recipe `x` is reachable from the starters through the include graph
`includes`: it is a starter, or a recipe reachable from them includes it. -/
inductive Reachable (includes : RecipeName → List RecipeName) (starter : List RecipeName) :
    RecipeName → Prop where
  | start {x : RecipeName} : x ∈ starter → Reachable includes starter x
  | step {x y : RecipeName} : Reachable includes starter x → y ∈ includes x →
      Reachable includes starter y

/-! ## Further functions of `file.go` and `cookrecipes.go` -/

/-- Function `filepath.Base` on the characters of a Unix path: the last element,
trailing slashes aside; `.` for the empty path and `/` for a path of slashes. -/
def baseChars (path : List Char) : List Char :=
  if path = [] then ['.']
  else
    let stripped := (path.reverse.dropWhile (fun c => c = '/')).reverse
    let last := (stripped.reverse.takeWhile (fun c => c ≠ '/')).reverse
    if last = [] then ['/'] else last

/-- Function `filepath.Base`. -/
def filepathBase (path : String) : String := String.mk (baseChars path.data)

/-- Function `filepath.Ext` on characters: the suffix of the last element that
starts at its last dot, empty when it has none. -/
def extChars (path : List Char) : List Char :=
  let last := (path.reverse.takeWhile (fun c => c ≠ '/')).reverse
  if '.' ∈ last then '.' :: (last.reverse.takeWhile (fun c => c ≠ '.')).reverse else []

/-- Function `filepath.Ext`. -/
def filepathExt (path : String) : String := String.mk (extChars path.data)

/-- Function `strings.TrimSuffix`. -/
def trimSuffix (s suffix : String) : String :=
  if suffix.data.isSuffixOf s.data then
    String.mk (s.data.take (s.data.length - suffix.data.length))
  else s

/-- Split a list of characters at every `sep`. -/
def splitChars (sep : Char) : List Char → List (List Char)
  | [] => [[]]
  | c :: cs =>
    if c = sep then [] :: splitChars sep cs
    else
      match splitChars sep cs with
      | [] => [[c]]
      | h :: t => (c :: h) :: t

/-- The call `strings.Split(s, ".")`. -/
def splitDots (s : String) : List String := (splitChars '.' s.data).map String.mk

/-- Function `filepath.Join` of one element. -/
def filepathJoin1 (a : String) : String := if a ≠ "" then filepathClean a else ""

/-- Method `File.dest`. -/
def File.dest (sys : Sys σ π) (f : File) : String × Option Error :=
  let (name, ok) := assertString (f.params.lookup "name")
  if !ok || name == "" then ("", some Error.ErrMissingName)
  else
    let basename := filepathBase name
    let (sv, okSkip) := assertBool (f.params.lookup "skip_verify")
    if okSkip && sv then (filepathJoin sys.CacheDir ("skip_" ++ basename), none)
    else
      let (hash, ok) := assertString (f.params.lookup "hash")
      if !ok || hash == "" then ("", some Error.ErrMissingHash)
      else (filepathJoin sys.CacheDir hash, none)

/-- Method `File.PropertiesForMethod`. The switch of the source is on the field
`f.method`; the parameter `method` is not read. A map is the list of its
entries and `none` is the `nil` map. -/
def File.PropertiesForMethod (f : File) (_method : String) :
    Option (List (String × String)) × Option Error :=
  match f.method with
  | "absent" => (some [("name", "string")], none)
  | "append" =>
    (some [("name", "string"), ("text", "[]string"), ("makedirs", "bool"),
      ("source", "string"), ("source_hash", "string"),
      ("template", "bool"), ("sources", "[]string"),
      ("source_hashes", "[]string")], none)
  | "cached" => (some [("source", "string"), ("source_hash", "string")], none)
  | "contains" =>
    (some [("name", "string"), ("text", "[]string"),
      ("source", "string"),
      ("source_hash", "string"), ("template", "bool"),
      ("sources", "[]string"), ("source_hashes", "[]string")], none)
  | "content" =>
    (some [("name", "string"), ("text", "[]string"),
      ("makedirs", "bool"), ("source", "string"),
      ("source_hash", "string"), ("template", "bool"),
      ("sources", "[]string"), ("source_hashes", "[]string")], none)
  | "directory" =>
    (some [("name", "string"), ("user", "string"), ("group", "string"), ("recurse", "bool"),
      ("dir_mode", "string"), ("file_mode", "string"), ("makedirs", "bool"),
      ("clean", "bool"), ("follow_symlinks", "bool"), ("force", "bool"),
      ("backupname", "string"), ("allow_symlink", "bool")], none)
  | "managed" =>
    (some [("name", "string"), ("source", "string"), ("source_hash", "string"),
      ("user", "string"),
      ("group", "string"), ("mode", "string"), ("attrs", "string"), ("template", "bool"),
      ("makedirs", "bool"), ("dir_mode", "string"), ("replace", "bool"),
      ("backup", "string"), ("show_changes", "bool"),
      ("create", "bool"),
      ("follow_symlinks", "bool"), ("skip_verify", "bool")], none)
  | "missing" => (some [("name", "string")], none)
  | "prepend" =>
    (some [("name", "string"), ("text", "[]string"), ("makedirs", "bool"),
      ("source", "string"), ("source_hash", "string"),
      ("template", "bool"), ("sources", "[]string"),
      ("source_hashes", "[]string")], none)
  | "exists" => (some [("name", "string")], none)
  | "symlink" =>
    (some [("name", "string"), ("target", "string"), ("force", "bool"),
      ("backupname", "string"),
      ("makedirs", "bool"), ("user", "string"), ("group", "string"), ("mode", "string")],
      none)
  | "touch" =>
    (some [("name", "string"), ("atime", "string"),
      ("mtime", "string"), ("makedirs", "bool")], none)
  | _ => (none, some (Error.errorf ("method " ++ f.method ++ " undefined")))

/-- Function `ResolveRecipeFilePath`. The constant `config.GrlxExt` and the
result of `config.BasePathValid()` are not among the sources and are taken as
`grlxExt` and `basePathValid`. The result `none` is a run-time panic: after an
`os.Stat` error other than not-exist, `stat` is nil and `stat.IsDir()`
dereferences it. -/
def ResolveRecipeFilePath (sys : Sys σ π) (grlxExt : String) (basePathValid : Bool)
    (w : σ) (basePath : String) (recipeID : RecipeName) : Option (String × Option Error) :=
  let basePath :=
    if filepathExt basePath = grlxExt then trimSuffix basePath ("." ++ grlxExt) else basePath
  if !basePathValid then some ("", some (Error.errorf ""))
  else
    let dirList := splitDots recipeID
    let currentDir :=
      (dirList.take (dirList.length - 1)).foldl filepathJoin (filepathJoin1 basePath)
    match sys.Stat w currentDir with
    | Except.error err => if err = Error.ErrNotExist then some ("", some err) else none
    | Except.ok stat =>
      if !stat.IsDir then some ("", some (Error.errorf "path provided is not to a directory"))
      else
        let recipeFile := filepathJoin currentDir (dirList.getLastD "" ++ grlxExt)
        match sys.Stat w recipeFile with
        | Except.error err => if err = Error.ErrNotExist then some ("", some err) else none
        | Except.ok stat =>
          if stat.IsDir then some ("", some (Error.errorf "path provided is a directory"))
          else some (recipeFile, none)

/-! ## A small concrete world

A filesystem with a flat table of nodes, one user and group database and a
provider that fetches into the cache: the instance at which the general
statements below are evaluated. -/

/-- One file or directory. -/
structure Node where
  path : String
  isDir : Bool
  uid : Int
  gid : Int
  mode : Nat
  deriving DecidableEq, Repr

/-- The state of the small world: its nodes. -/
abbrev World := List Node

/-- Whether a path names a node. -/
def World.has (w : World) (p : String) : Bool := w.any (fun n => n.path = p)

/-- The small world as a `Sys`; its provider is the pair of source and cache
destination. -/
def smallSys : Sys World (String × String) where
  CacheDir := "/var/cache/grlx"
  ErrorText := fun e =>
    match e with
    | Error.errorf m => m
    | Error.external m => m
    | Error.ErrNotExist => "file does not exist"
    | _ => "error"
  Stat := fun w p =>
    match w.find? (fun n => n.path = p) with
    | some n => Except.ok { IsDir := n.isDir }
    | none => Except.error Error.ErrNotExist
  Remove := fun w p =>
    if w.has p then (w.filter (fun n => n.path ≠ p), none) else (w, some Error.ErrNotExist)
  MkdirAll := fun w p perm =>
    if w.has p then (w, none)
    else (w ++ [{ path := p, isDir := true, uid := 0, gid := 0, mode := perm }], none)
  Lookup := fun _ u =>
    if u = "root" then Except.ok "0" else Except.error (Error.external "unknown user")
  LookupGroup := fun _ g =>
    if g = "root" then Except.ok "0" else Except.error (Error.external "unknown group")
  Chown := fun w p uid gid =>
    if w.has p then
      (w.map (fun n => if n.path = p then
        { n with uid := if uid = -1 then n.uid else uid,
                 gid := if gid = -1 then n.gid else gid } else n), none)
    else (w, some Error.ErrNotExist)
  Chmod := fun w p mode =>
    if w.has p then (w.map (fun n => if n.path = p then { n with mode := mode } else n), none)
    else (w, some Error.ErrNotExist)
  WalkDir := fun w root =>
    (w.filter (fun n => root.data.isPrefixOf n.path.data)).map (fun n => n.path)
  NewFileProvider := fun _ source dest _ _ => Except.ok (source, dest)
  Verify := fun w fp => if w.has fp.2 then (true, none) else (false, some Error.ErrFileNotFound)
  Download := fun w fp =>
    (w ++ [{ path := fp.2, isDir := false, uid := 0, gid := 0, mode := 0o644 }], none)
  Describe := fun fp => fp.1

/-- A prototype cooker with a free name and method list, whose `Parse` binds a
copy of itself to the step: the shape of every ingredient of the repository. -/
structure Proto where
  name : String
  methods : List String
  id : String
  method : String
  params : Params

/-- The `RecipeCooker` operations of `Proto`. -/
def protoOps : CookerOps Proto where
  Methods := fun p => (p.name, p.methods)
  Parse := fun p id method params =>
    Except.ok { name := p.name, methods := p.methods, id := id, method := method,
                params := params }

/-! ## Example steps -/

/-- A `directory` step for a directory that does not exist yet. -/
def directoryStep : File :=
  { id := "step", method := "directory", params := [("name", Value.str "/srv/app")] }

/-- A `directory` step without a `name`. -/
def directoryNoName : File := { id := "step", method := "directory", params := [] }

/-- A `content` step whose target is the filesystem root. -/
def contentRoot : File :=
  { id := "step", method := "content", params := [("name", Value.str "/")] }

/-- An `absent` step whose target cleans to the filesystem root. -/
def absentRoot : File :=
  { id := "step", method := "absent", params := [("name", Value.str "/tmp/..")] }

/-- An `absent` step for the file `/tmp/f`. -/
def absentStep : File :=
  { id := "step", method := "absent", params := [("name", Value.str "/tmp/f")] }

/-- A `cached` step that skips verification and gives no hash. -/
def cachedSkipVerify : File :=
  { id := "step", method := "cached",
    params := [("source", Value.str "https://x/y.tar"), ("skip_verify", Value.bool true)] }

/-- A `cached` step without a `source`. -/
def cachedNoSource : File :=
  { id := "step", method := "cached", params := [("hash", Value.str "deadbeef")] }

/-- A world holding the file `/tmp/f`. -/
def worldWithFile : World :=
  [{ path := "/tmp/f", isDir := false, uid := 0, gid := 0, mode := 0o644 }]

/-- The include graph of the end-to-end scenario: `web.nginx` includes
`common.base`, which includes nothing. -/
def scenarioIncludes : RecipeName → List RecipeName :=
  fun n => if n = "web.nginx" then ["common.base"] else []

/-- The registered prototype `File{}`. -/
def filePrototype : File := { id := "", method := "", params := [] }

/-- A `cached` step that skips verification, with a `name` and a `source`. -/
def cachedSkipNamed : File :=
  { id := "step", method := "cached",
    params := [("name", Value.str "/etc/app.conf"), ("source", Value.str "https://x/y.tar"),
      ("skip_verify", Value.bool true)] }

/-- A `cached` step with a `source` and a `hash` and no `name`. -/
def cachedHashed : File :=
  { id := "step", method := "cached",
    params := [("source", Value.str "https://x/y.tar"), ("hash", Value.str "deadbeef")] }

/-- A `cached` step with a `name`, a `source` and a `hash`. -/
def cachedNamedHashed : File :=
  { id := "step", method := "cached",
    params := [("name", Value.str "/etc/app.conf"), ("source", Value.str "https://x/y.tar"),
      ("hash", Value.str "deadbeef")] }

/-- An `exists` step whose `name` is the empty string. -/
def existsEmptyName : File :=
  { id := "step", method := "exists", params := [("name", Value.str "")] }

/-- An `absent` step whose `name` is the empty string. -/
def absentEmptyName : File :=
  { id := "step", method := "absent", params := [("name", Value.str "")] }

/-- A `prepend` step whose `name` is the empty string. -/
def prependEmptyName : File :=
  { id := "step", method := "prepend", params := [("name", Value.str "")] }

/-- A `directory` step whose `dir_mode` is not an octal number. -/
def directoryBadMode : File :=
  { id := "step", method := "directory",
    params := [("name", Value.str "/srv/app"), ("dir_mode", Value.str "rwx")] }

/-- A world holding the working directory `.`. -/
def worldWithDot : World :=
  [{ path := ".", isDir := true, uid := 0, gid := 0, mode := 0o755 }]

/-- A world holding the recipe tree `/recipes/a/b/c.grlx`. -/
def worldWithRecipe : World :=
  [{ path := "/recipes/a/b", isDir := true, uid := 0, gid := 0, mode := 0o755 },
   { path := "/recipes/a/b/c.grlx", isDir := false, uid := 0, gid := 0, mode := 0o644 }]

/-- A world holding the recipe root alone. -/
def worldWithRoot : World :=
  [{ path := "/recipes", isDir := true, uid := 0, gid := 0, mode := 0o755 }]

/-- A prototype named `x` declaring the methods `m1` and `m2`. -/
def protoFirst : Proto :=
  { name := "x", methods := ["m1", "m2"], id := "first", method := "", params := [] }

/-- A second prototype named `x`, declaring the methods `m2` and `m3`. -/
def protoSecond : Proto :=
  { name := "x", methods := ["m2", "m3"], id := "second", method := "", params := [] }

/-! ## Theorems -/

/-- C1 (the code departs from the claim). The claim: for sorted `A` and `B`,
`stringSliceIsSubset(A, B)` returns `(false, M)` with `M` exactly the elements of
`A` that do not occur in `B`. On the sorted slices `A = ["a", "b"]` and
`B = ["b"]` the code returns `(false, ["a", "b"])`, although `"b"` occurs in `B`
and the elements of `A` absent from `B` are `["a"]`: on `a[0] < b[0]` the loop
advances `b` as well as `a`, so `"b"` of `B` is dropped before `"b"` of `A` is
compared with it. -/
theorem C1_subset_check_reports_present_element :
    SortedStrings ["a", "b"] ∧ SortedStrings ["b"] ∧
    stringSliceIsSubset ["a", "b"] ["b"] = (false, ["a", "b"]) ∧
    "b" ∈ ["b"] ∧ ["a", "b"].filter (fun x => decide (x ∉ ["b"])) = ["a"] := by
  decide

/-- C2. `NewRecipeCooker` fails with `ErrUnknownIngredient` when the ingredient has
no registry entry, fails with `ErrUnknownMethod` when the ingredient is
registered but the method is not, and otherwise returns the result of the
registered prototype's `Parse(id, method, params)`; these are the only places
where it produces the two errors itself, so when `Parse` of the prototype does
not return them, each error is returned exactly in its case. In particular,
after `RegisterAllMethods` of a prototype named `"x"` with methods
`"m1"`, `"m2"` on a registry with no `"x"` or `"y"` entry, `("x", "m1")` returns
what the prototype's `Parse` returns (a cooker reporting `"x"` when `Parse`
gives one), `("x", "m3")` fails with `ErrUnknownMethod` and `("y", "m1")` fails
with `ErrUnknownIngredient`. -/
theorem C2_NewRecipeCooker_dispatch {C : Type} (ops : CookerOps C) (ingMap : Registry C)
    (id ingredient method : String) (params : Params) :
    (ingMap ingredient = none →
      NewRecipeCooker ops ingMap id ingredient method params =
        Except.error Error.ErrUnknownIngredient) ∧
    (∀ r, ingMap ingredient = some r → r method = none →
      NewRecipeCooker ops ingMap id ingredient method params =
        Except.error Error.ErrUnknownMethod) ∧
    (∀ r ing, ingMap ingredient = some r → r method = some ing →
      NewRecipeCooker ops ingMap id ingredient method params =
        ops.Parse ing id method params) ∧
    ((∀ r ing, ingMap ingredient = some r → r method = some ing →
        ops.Parse ing id method params ≠ Except.error Error.ErrUnknownIngredient ∧
        ops.Parse ing id method params ≠ Except.error Error.ErrUnknownMethod) →
      (NewRecipeCooker ops ingMap id ingredient method params =
          Except.error Error.ErrUnknownIngredient ↔ ingMap ingredient = none) ∧
      (NewRecipeCooker ops ingMap id ingredient method params =
          Except.error Error.ErrUnknownMethod ↔
        ∃ r, ingMap ingredient = some r ∧ r method = none)) ∧
    (∀ p : C, ops.Methods p = ("x", ["m1", "m2"]) → ingMap "x" = none → ingMap "y" = none →
      NewRecipeCooker ops (RegisterAllMethods ops ingMap p) id "x" "m1" params =
        ops.Parse p id "m1" params ∧
      (∀ c, ops.Parse p id "m1" params = Except.ok c → (ops.Methods c).1 = "x" →
        ∃ c1, NewRecipeCooker ops (RegisterAllMethods ops ingMap p) id "x" "m1" params =
          Except.ok c1 ∧ (ops.Methods c1).1 = "x") ∧
      NewRecipeCooker ops (RegisterAllMethods ops ingMap p) id "x" "m3" params =
        Except.error Error.ErrUnknownMethod ∧
      NewRecipeCooker ops (RegisterAllMethods ops ingMap p) id "y" "m1" params =
        Except.error Error.ErrUnknownIngredient) := by
  refine ⟨?_, ?_, ?_, ?_, ?_⟩
  · intro h
    simp [NewRecipeCooker, h]
  · intro r h hr
    simp [NewRecipeCooker, h, hr]
  · intro r ing h hr
    simp [NewRecipeCooker, h, hr]
  · intro hs
    cases h : ingMap ingredient with
    | none => simp [NewRecipeCooker, h]
    | some r =>
      cases hr : r method with
      | none => simp [NewRecipeCooker, h, hr]
      | some ing =>
        have h2 := hs r ing h hr
        simp [NewRecipeCooker, h, hr, h2.1, h2.2]
  · intro p hM hx hy
    have h1 : NewRecipeCooker ops (RegisterAllMethods ops ingMap p) id "x" "m1" params =
        ops.Parse p id "m1" params := by
      simp [NewRecipeCooker, RegisterAllMethods, hM, hx, setMethod]
    refine ⟨h1, ?_, ?_, ?_⟩
    · intro c hc hn
      exact ⟨c, by rw [h1, hc], hn⟩
    · simp [NewRecipeCooker, RegisterAllMethods, hM, hx, setMethod]
    · simp [NewRecipeCooker, RegisterAllMethods, hM, hx, hy, setMethod]

/-- C2 at a concrete prototype: on the empty registry, after registering the
prototype `x` with methods `m1`, `m2`, the three calls of the claim give a cooker
reporting `"x"`, `ErrUnknownMethod` and `ErrUnknownIngredient`. -/
theorem C2_NewRecipeCooker_dispatch_witness :
    (∃ c1, NewRecipeCooker protoOps
        (RegisterAllMethods protoOps (emptyRegistry Proto)
          { name := "x", methods := ["m1", "m2"], id := "", method := "", params := [] })
        "step" "x" "m1" [("name", Value.str "/tmp/f")] = Except.ok c1 ∧
      (protoOps.Methods c1).1 = "x") ∧
    NewRecipeCooker protoOps
        (RegisterAllMethods protoOps (emptyRegistry Proto)
          { name := "x", methods := ["m1", "m2"], id := "", method := "", params := [] })
        "step" "x" "m3" [("name", Value.str "/tmp/f")] =
      Except.error Error.ErrUnknownMethod ∧
    NewRecipeCooker protoOps
        (RegisterAllMethods protoOps (emptyRegistry Proto)
          { name := "x", methods := ["m1", "m2"], id := "", method := "", params := [] })
        "step" "y" "m1" [("name", Value.str "/tmp/f")] =
      Except.error Error.ErrUnknownIngredient :=
  have h := (C2_NewRecipeCooker_dispatch protoOps (emptyRegistry Proto) "step" "x" "m1"
    [("name", Value.str "/tmp/f")]).2.2.2.2
    { name := "x", methods := ["m1", "m2"], id := "", method := "", params := [] }
    rfl rfl rfl
  ⟨h.2.1 _ rfl rfl, h.2.2.1, h.2.2.2⟩

/-- C3 (the code departs from the claim). The claim: `Test` is a dry run that
leaves the filesystem as it found it. `File.directory` never reads its `test`
flag: `Test` of a `directory` step for `/srv/app` on a filesystem without that
directory calls `os.MkdirAll` and leaves the filesystem with the directory
created. -/
theorem C3_Test_directory_creates_the_directory :
    (File.Test smallSys directoryStep []).world =
      [{ path := "/srv/app", isDir := true, uid := 0, gid := 0, mode := 0o755 }] ∧
    (File.Test smallSys directoryStep []).world ≠ [] ∧
    File.Test smallSys directoryStep [] = File.Apply smallSys directoryStep [] := by
  refine ⟨by decide, by decide, rfl⟩

/-- C4, the claim as stated fails: `content` with `name = "/"` (which cleans to
`/`) returns the error of `undef()`, `method content undefined`, not the
root-guard sentinel `ErrModifyRoot`, in `Test` and in `Apply`. -/
theorem C4_content_on_root_returns_undefined :
    filepathClean "/" = "/" ∧
    (File.Test smallSys contentRoot []).err =
      some (Error.errorf "method content undefined") ∧
    (File.Test smallSys contentRoot []).err ≠ some Error.ErrModifyRoot ∧
    (File.Apply smallSys contentRoot []).err ≠ some Error.ErrModifyRoot := by
  decide

/-- C4, amended. For `absent`, `prepend` and `directory`, in both `Test` and
`Apply`, if the `name` param is a string that cleans to `/` the call fails with
a `Failed` result and an error, `ErrDeleteRoot` for `absent` and `ErrModifyRoot`
for `prepend`, and the world is left as it was; `content`, `managed` and
`symlink` return the result of `undef()` (a `Failed` result with the error
`method … undefined`), also with the world left as it was. -/
theorem C4_root_guard {σ π : Type} (sys : Sys σ π) (f : File) (w : σ) (name : String)
    (hn : f.params.lookup "name" = some (Value.str name))
    (hc : filepathClean name = "/") :
    (f.method = "absent" →
      f.Test sys w = { res := failed, err := some Error.ErrDeleteRoot, world := w } ∧
      f.Apply sys w = { res := failed, err := some Error.ErrDeleteRoot, world := w }) ∧
    (f.method = "prepend" →
      f.Test sys w = { res := failed, err := some Error.ErrModifyRoot, world := w } ∧
      f.Apply sys w = { res := failed, err := some Error.ErrModifyRoot, world := w }) ∧
    (f.method = "directory" →
      (f.Test sys w).res.Failed = true ∧ (f.Test sys w).err ≠ none ∧
      (f.Test sys w).world = w ∧
      (f.Apply sys w).res.Failed = true ∧ (f.Apply sys w).err ≠ none ∧
      (f.Apply sys w).world = w) ∧
    (f.method = "content" ∨ f.method = "managed" ∨ f.method = "symlink" →
      f.Test sys w = f.undef w ∧ f.Apply sys w = f.undef w) := by
  refine ⟨?_, ?_, ?_, ?_⟩
  · intro hm
    simp [File.Test, File.Apply, hm, File.absent, hn, assertString, hc]
  · intro hm
    simp [File.Test, File.Apply, hm, File.prepend, hn, assertString, hc]
  · intro hm
    simp [File.Test, File.Apply, hm, File.directory, hn, assertString, hc, failed]
  · intro hm
    rcases hm with hm | hm | hm <;>
      simp [File.Test, File.Apply, hm, File.content, File.managed, File.symlink, File.undef]

/-- C4, amended, at a concrete step: `absent` of `/tmp/..`, which cleans to `/`, on
a world holding a file fails with `ErrDeleteRoot` in `Test` and in `Apply` and
leaves the world as it was. -/
theorem C4_root_guard_witness :
    filepathClean "/tmp/.." = "/" ∧
    File.Test smallSys absentRoot worldWithFile =
        { res := failed, err := some Error.ErrDeleteRoot, world := worldWithFile } ∧
    File.Apply smallSys absentRoot worldWithFile =
        { res := failed, err := some Error.ErrDeleteRoot, world := worldWithFile } :=
  ⟨by decide, (C4_root_guard smallSys absentRoot worldWithFile "/tmp/.." rfl (by decide)).1 rfl⟩

/-- Appending the elements of a list one at a time appends the list. -/
theorem foldl_snoc_eq {α : Type} (l acc : List α) :
    l.foldl (fun names v => names ++ [v]) acc = acc ++ l := by
  induction l generalizing acc with
  | nil => simp
  | cons x xs ih => simp [ih]

/-- The keys of a map after an assignment. -/
theorem mapAssign_keys {α β : Type} [DecidableEq α] (m : List (α × β)) (k : α) (v : β) :
    (mapAssign m k v).map Prod.fst =
      if k ∈ m.map Prod.fst then m.map Prod.fst else m.map Prod.fst ++ [k] := by
  unfold mapAssign
  by_cases h : k ∈ m.map Prod.fst
  · have h2 : (m.any fun e => decide (e.1 = k)) = true := by
      simp only [List.mem_map] at h
      obtain ⟨e, he, hk⟩ := h
      simp only [List.any_eq_true, decide_eq_true_eq]
      exact ⟨e, he, hk⟩
    simp only [h2, if_true, h]
    rw [List.map_map]
    apply List.map_congr_left
    intro e _
    by_cases hek : e.1 = k <;> simp [hek]
  · have h2 : (m.any fun e => decide (e.1 = k)) = false := by
      rw [Bool.eq_false_iff]
      intro hc
      simp only [List.any_eq_true, decide_eq_true_eq] at hc
      obtain ⟨e, he, hk⟩ := hc
      exact h (List.mem_map.mpr ⟨e, he, hk⟩)
    simp [h2, h]

/-- The keys of `includeMap` after the first loop of `collectAllIncludes`: the
keys it had and the starter names. -/
theorem mem_keys_foldl_mapAssign (starter : List RecipeName) (m : List (RecipeName × Bool))
    (x : RecipeName) :
    x ∈ (starter.foldl (fun m s => mapAssign m s false) m).map Prod.fst ↔
      x ∈ m.map Prod.fst ∨ x ∈ starter := by
  induction starter generalizing m with
  | nil => simp
  | cons s ss ih =>
    rw [List.foldl_cons, ih, mapAssign_keys]
    by_cases h : s ∈ m.map Prod.fst
    · rw [if_pos h]
      constructor
      · rintro (h1 | h1)
        · exact Or.inl h1
        · exact Or.inr (List.mem_cons_of_mem _ h1)
      · rintro (h1 | h1)
        · exact Or.inl h1
        · rcases List.mem_cons.mp h1 with h2 | h2
          · exact Or.inl (h2 ▸ h)
          · exact Or.inr h2
    · rw [if_neg h]
      simp only [List.mem_append, List.mem_singleton, List.mem_cons]
      tauto

/-- The keys of `includeMap` stay distinct through the first loop of
`collectAllIncludes`. -/
theorem nodup_keys_foldl_mapAssign (starter : List RecipeName) (m : List (RecipeName × Bool))
    (hm : (m.map Prod.fst).Nodup) :
    ((starter.foldl (fun m s => mapAssign m s false) m).map Prod.fst).Nodup := by
  induction starter generalizing m with
  | nil => simpa using hm
  | cons s ss ih =>
    rw [List.foldl_cons]
    apply ih
    rw [mapAssign_keys]
    by_cases h : s ∈ m.map Prod.fst
    · rw [if_pos h]; exact hm
    · rw [if_neg h]
      rw [List.nodup_append]
      refine ⟨hm, List.nodup_singleton s, ?_⟩
      intro a ha hb
      rw [List.mem_singleton] at hb
      exact h (hb ▸ ha)

/-- C5, the claim as stated fails: in the scenario where `web.nginx` includes
`common.base`, the recipe `common.base` is reachable from the seed
`["web.nginx"]`, but `collectAllIncludes` returns `["web.nginx"]` alone. -/
theorem C5_closure_misses_included_recipe :
    Reachable scenarioIncludes ["web.nginx"] "common.base" ∧
    (collectAllIncludes id ["web.nginx"]).1 = ["web.nginx"] ∧
    "common.base" ∉ (collectAllIncludes id ["web.nginx"]).1 := by
  refine ⟨?_, by decide, by decide⟩
  exact Reachable.step (x := "web.nginx") (Reachable.start (by decide)) (by decide)

/-- C5, amended. For every starter list, `collectAllIncludes` returns a nil error
and a list holding exactly the starter names: it reads no recipe and follows no
`includes`. For the seed `["web.nginx"]` it returns `["web.nginx"]`, whatever
`web.nginx` includes. The order in which `range` visits the map is any
order that visits every key once. -/
theorem C5_collectAllIncludes_returns_the_starters
    (rangeOrder : List RecipeName → List RecipeName)
    (hrange : ∀ ks, (rangeOrder ks).Perm ks) (starter : List RecipeName) :
    (collectAllIncludes rangeOrder starter).2 = none ∧
    (∀ x, x ∈ (collectAllIncludes rangeOrder starter).1 ↔ x ∈ starter) ∧
    (collectAllIncludes rangeOrder ["web.nginx"]).1 = ["web.nginx"] := by
  refine ⟨rfl, ?_, ?_⟩
  · intro x
    simp only [collectAllIncludes, foldl_snoc_eq, List.nil_append]
    rw [(hrange _).mem_iff, mem_keys_foldl_mapAssign]
    simp
  · simp only [collectAllIncludes, foldl_snoc_eq, List.nil_append]
    have h : (List.foldl (fun m s => mapAssign m s false) [] ["web.nginx"]).map Prod.fst =
        ["web.nginx"] := by decide
    rw [h]
    exact List.perm_singleton.mp (hrange _)

/-- C5, amended, with `range` visiting the keys last to first and the starters
`a`, `b`, `a`. -/
theorem C5_collectAllIncludes_returns_the_starters_witness :
    (collectAllIncludes List.reverse ["a", "b", "a"]).2 = none ∧
    (∀ x, x ∈ (collectAllIncludes List.reverse ["a", "b", "a"]).1 ↔ x ∈ ["a", "b", "a"]) ∧
    (collectAllIncludes List.reverse ["web.nginx"]).1 = ["web.nginx"] :=
  C5_collectAllIncludes_returns_the_starters List.reverse
    (fun ks => List.reverse_perm ks) ["a", "b", "a"]

/-- The inner loop of `getIncludes` on a list of strings returns them in order. -/
theorem getIncludesLoop_strings (i : List Value) (ss inc : List RecipeName) :
    getIncludesLoop i (ss.map Value.str) inc = (inc ++ ss, none) := by
  induction ss generalizing inc with
  | nil => simp [getIncludesLoop]
  | cons s ss ih => simp [getIncludesLoop, ih]

/-- The inner loop of `getIncludes` on a list with an element that is not a
string returns the empty list and an error. -/
theorem getIncludesLoop_not_strings (i vs : List Value) (inc : List RecipeName)
    (h : ∀ ss : List String, vs ≠ ss.map Value.str) :
    (getIncludesLoop i vs inc).1 = [] ∧ (getIncludesLoop i vs inc).2 ≠ none := by
  induction vs generalizing inc with
  | nil => exact absurd rfl (h [])
  | cons v vs ih =>
    cases v with
    | str t =>
      simp only [getIncludesLoop]
      apply ih
      intro ss hss
      exact h (t :: ss) (by simp [hss])
    | _ => simp [getIncludesLoop]

/-- C6. For every recipe document: if the key `includes` is absent, `getIncludes`
returns the empty list and no error; if it is a list all of whose elements are
strings, it returns exactly those strings in the same order and no error; in
every other case (a value that is not a list, or a list with an element that
is not a string) it returns an error and an empty list. -/
theorem C6_getIncludes_cases (recipe : Params) :
    (recipe.lookup "includes" = none → getIncludes recipe = ([], none)) ∧
    (∀ ss : List String, recipe.lookup "includes" = some (Value.list (ss.map Value.str)) →
      getIncludes recipe = (ss, none)) ∧
    (∀ v, recipe.lookup "includes" = some v →
      (∀ ss : List String, v ≠ Value.list (ss.map Value.str)) →
      (getIncludes recipe).1 = [] ∧ (getIncludes recipe).2 ≠ none) := by
  refine ⟨?_, ?_, ?_⟩
  · intro h
    simp [getIncludes, h]
  · intro ss h
    simp [getIncludes, h, getIncludesLoop_strings]
  · intro v h hv
    cases v with
    | list i =>
      simp only [getIncludes, h]
      apply getIncludesLoop_not_strings
      intro ss hss
      exact hv ss (by rw [hss])
    | _ => simp [getIncludes, h]

/-- C6 at three documents: one without `includes`, one including two recipes, one
whose `includes` holds a number. -/
theorem C6_getIncludes_cases_witness :
    getIncludes [("name", Value.str "web")] = ([], none) ∧
    getIncludes [("includes", Value.list (["common.base", "common.users"].map Value.str))] =
      (["common.base", "common.users"], none) ∧
    ((getIncludes [("includes", Value.list [Value.str "common.base", Value.int 3])]).1 = [] ∧
      (getIncludes [("includes", Value.list [Value.str "common.base", Value.int 3])]).2 ≠
        none) :=
  ⟨(C6_getIncludes_cases [("name", Value.str "web")]).1 rfl,
   (C6_getIncludes_cases
      [("includes", Value.list (["common.base", "common.users"].map Value.str))]).2.1
      ["common.base", "common.users"] rfl,
   (C6_getIncludes_cases [("includes", Value.list [Value.str "common.base", Value.int 3])]).2.2
      (Value.list [Value.str "common.base", Value.int 3]) rfl
      (fun ss h => by
        match ss, h with
        | _ :: _ :: _ :: _, h => simp at h
        | [_, _], h => simp at h
        | [_], h => simp at h
        | [], h => simp at h)⟩

/-- In the small world a removed path no longer exists. -/
theorem smallSys_remove_stat (w : World) (p : String) (w1 : World)
    (h : smallSys.Remove w p = (w1, none)) :
    smallSys.Stat w1 p = Except.error Error.ErrNotExist := by
  simp only [smallSys] at h ⊢
  by_cases hp : w.has p
  · simp only [hp, if_true, Prod.mk.injEq, and_true] at h
    subst h
    have : List.find? (fun n => decide (n.path = p)) (List.filter (fun n => decide (n.path ≠ p)) w)
        = none := by
      rw [List.find?_eq_none]
      intro n hn
      simp only [List.mem_filter, decide_eq_true_eq] at hn
      simpa using hn.2
    rw [this]
  · simp [hp] at h

/-- C7. For every `absent` step and every world, if a first `Apply` succeeds then
it returned no error, and a second `Apply` with the same params returns
`Succeeded` with `Changed = false`, no note and no error, and leaves the world
exactly as the first `Apply` left it. The operating system is any whose
`os.Stat` reports a path as not existing after a successful `os.Remove` of
it. -/
theorem C7_absent_apply_twice {σ π : Type} (sys : Sys σ π)
    (hRemove : ∀ w p w1, sys.Remove w p = (w1, none) →
      sys.Stat w1 p = Except.error Error.ErrNotExist)
    (f : File) (w : σ) (hm : f.method = "absent")
    (h1 : (f.Apply sys w).res.Succeeded = true) :
    (f.Apply sys w).err = none ∧
    f.Apply sys (f.Apply sys w).world =
      { res := { Succeeded := true, Failed := false, Changed := false, Notes := none },
        err := none, world := (f.Apply sys w).world } := by
  have hA : ∀ w, f.Apply sys w = f.absent sys false w := by
    intro w; simp [File.Apply, hm]
  simp only [hA] at h1 ⊢
  unfold File.absent at h1 ⊢
  rcases hn : assertString (f.params.lookup "name") with ⟨name, ok⟩
  simp only [hn] at h1 ⊢
  cases ok with
  | false => simp [failed] at h1
  | true =>
    by_cases he : filepathClean name = ""
    · simp [he, failed] at h1
    by_cases hr : filepathClean name = "/"
    · simp [hr, failed] at h1
    cases hs : sys.Stat w (filepathClean name) with
    | error e =>
      by_cases hne : e = Error.ErrNotExist
      · simp [he, hr, hs, hne]
      · simp [he, hr, hs, hne, failed] at h1
    | ok info =>
      rcases hrm : sys.Remove w (filepathClean name) with ⟨w1, oe⟩
      cases oe with
      | some e => simp [he, hr, hs, hrm, failed] at h1
      | none =>
        have hlaw := hRemove w (filepathClean name) w1 hrm
        simp [he, hr, hs, hrm, hlaw]

/-- C7 in the small world: `absent` of `/tmp/f` on a world holding that file
removes it (`Changed = true`); applied again it reports `Changed = false` and
leaves the world as the first call left it. -/
theorem C7_absent_apply_twice_witness :
    (File.Apply smallSys absentStep worldWithFile).res.Changed = true ∧
    (File.Apply smallSys absentStep worldWithFile).err = none ∧
    File.Apply smallSys absentStep (File.Apply smallSys absentStep worldWithFile).world =
      { res := { Succeeded := true, Failed := false, Changed := false, Notes := none },
        err := none, world := (File.Apply smallSys absentStep worldWithFile).world } :=
  ⟨by decide,
   C7_absent_apply_twice smallSys smallSys_remove_stat absentStep worldWithFile rfl
     (by decide)⟩

/-- C8 (the code departs from the claim). The claim: whenever `Test` or `Apply`
returns an error, the result has `Failed = true` and `Changed = false`.
`directory` without a `name` returns `ErrMissingName` together with a result
whose `Changed` is `changes != nil`, and `changes` is the empty, non-nil slice
`[]fmt.Stringer{}`: the result has `Changed = true`. -/
theorem C8_directory_without_name_reports_changed :
    (File.Test smallSys directoryNoName []).err = some Error.ErrMissingName ∧
    (File.Test smallSys directoryNoName []).res =
      { Succeeded := false, Failed := true, Changed := true, Notes := some [] } ∧
    (File.Apply smallSys directoryNoName []).err = some Error.ErrMissingName ∧
    (File.Apply smallSys directoryNoName []).res.Changed = true := by
  decide

/-- C9. For every step on which `Apply` fails parameter validation, that is a
missing or non-string `name` (for `absent`, `directory`, `exists`, `missing`,
`prepend`), a `name` that cleans to `/` (for `absent`, `directory`, `prepend`),
or a missing, non-string or empty `source` or `hash` for `cached`: `Test`
returns the identical result, error and world; the call fails with an error;
the world is left as it was; and the result and error are the same in every
world and under every operating system and provider, so neither is
consulted. -/
theorem C9_validation_failures_agree {σ π : Type} (sys : Sys σ π) (f : File) (w : σ)
    (hv :
      ((f.method = "absent" ∨ f.method = "directory" ∨ f.method = "exists" ∨
          f.method = "missing" ∨ f.method = "prepend") ∧
        (assertString (f.params.lookup "name")).2 = false) ∨
      ((f.method = "absent" ∨ f.method = "directory" ∨ f.method = "prepend") ∧
        (assertString (f.params.lookup "name")).2 = true ∧
        filepathClean (assertString (f.params.lookup "name")).1 = "/") ∨
      (f.method = "cached" ∧
        ((assertString (f.params.lookup "source")).2 = false ∨
          (assertString (f.params.lookup "source")).1 = "" ∨
          (assertString (f.params.lookup "hash")).2 = false ∨
          (assertString (f.params.lookup "hash")).1 = ""))) :
    f.Test sys w = f.Apply sys w ∧
    (f.Apply sys w).world = w ∧
    (f.Apply sys w).res.Failed = true ∧
    (f.Apply sys w).err ≠ none ∧
    ∀ (σ1 π1 : Type) (sys1 : Sys σ1 π1) (w1 : σ1),
      (f.Apply sys1 w1).res = (f.Apply sys w).res ∧
      (f.Apply sys1 w1).err = (f.Apply sys w).err ∧
      (f.Apply sys1 w1).world = w1 := by
  rcases hv with ⟨hm, hn⟩ | ⟨hm, hok, hc⟩ | ⟨hm, hs⟩
  · rcases hnm : assertString (f.params.lookup "name") with ⟨name, ok⟩
    rw [hnm] at hn
    simp only at hn
    subst hn
    rcases hm with hm | hm | hm | hm | hm <;>
      simp [File.Test, File.Apply, hm, File.absent, File.directory, File.exists,
        File.missing, File.prepend, hnm, failed]
  · rcases hnm : assertString (f.params.lookup "name") with ⟨name, ok⟩
    rw [hnm] at hok hc
    simp only at hok hc
    subst hok
    rcases hm with hm | hm | hm <;>
      simp [File.Test, File.Apply, hm, File.absent, File.directory, File.prepend, hnm, hc,
        failed]
  · rcases hsm : assertString (f.params.lookup "source") with ⟨source, ok⟩
    rcases hhm : assertString (f.params.lookup "hash") with ⟨hash, ok2⟩
    rw [hsm, hhm] at hs
    simp only at hs
    by_cases hsrc : ok = false ∨ source = ""
    · rcases hsrc with h | h <;>
        simp [File.Test, File.Apply, hm, File.cached, hsm, h, failed]
    · have h1 : ok = true := by
        cases ok <;> simp_all
      have h2 : source ≠ "" := fun h => hsrc (Or.inr h)
      have h3 : ok2 = false ∨ hash = "" := by
        rcases hs with h | h | h | h
        · exact absurd (Or.inl h) hsrc
        · exact absurd (Or.inr h) hsrc
        · exact Or.inl h
        · exact Or.inr h
      rcases h3 with h | h <;>
        simp [File.Test, File.Apply, hm, File.cached, hsm, hhm, h, h1, h2, failed]

/-- C9 at a concrete step: `cached` without a `source`, on a world holding a
file, fails in `Test` exactly as in `Apply`, with `source not defined`, and
leaves the world as it was. -/
theorem C9_validation_failures_agree_witness :
    File.Test smallSys cachedNoSource worldWithFile =
      File.Apply smallSys cachedNoSource worldWithFile ∧
    (File.Apply smallSys cachedNoSource worldWithFile).world = worldWithFile ∧
    (File.Apply smallSys cachedNoSource worldWithFile).err =
      some (Error.errorf "source not defined") :=
  have h := C9_validation_failures_agree smallSys cachedNoSource worldWithFile
    (Or.inr (Or.inr ⟨rfl, Or.inl (by decide)⟩))
  ⟨h.1, h.2.1, by decide⟩

/-- C10 (the code departs from the claim). The claim: `cached` with a non-empty
`source`, `skip_verify = true` and no `hash` does not fail validation for the
missing hash. The code checks `hash` without reading `skip_verify`: the step
fails with `hash not defined`, in `Apply` and in `Test`, before any cache path
is resolved or any provider is created, and the world is left as it was. -/
theorem C10_cached_skip_verify_still_requires_hash :
    File.Apply smallSys cachedSkipVerify [] =
      { res := failed, err := some (Error.errorf "hash not defined"), world := [] } ∧
    File.Test smallSys cachedSkipVerify [] =
      { res := failed, err := some (Error.errorf "hash not defined"), world := [] } := by
  constructor <;> rfl

/-- C11. For `cached` with non-empty `source` and `hash` and a provider that was
created, taking the outcomes of `Verify` and `Download` as given: if `Verify`
reports valid (with no error, or with file-not-found), `Test` and `Apply`
return `Succeeded` with `Changed = false` and the world as it was, `Download`
not having run; if `Verify` reports not valid (with no error or with
file-not-found), `Test` returns `Succeeded` with `Changed = true` and the world
as it was, and `Apply` runs `Download` once on that world and, when it
succeeds, returns `Succeeded` with `Changed = true`; an error of `Download`, or
an error of `Verify` other than file-not-found, is returned with a `Failed`
result. -/
theorem C11_cached_outcomes {σ π : Type} (sys : Sys σ π) (f : File) (w : σ) (source hash : String) (fp : π)
    (hm : f.method = "cached")
    (hs : f.params.lookup "source" = some (Value.str source)) (hs0 : source ≠ "")
    (hh : f.params.lookup "hash" = some (Value.str hash)) (hh0 : hash ≠ "")
    (hfp : sys.NewFileProvider f.id source (filepathJoin sys.CacheDir hash) hash f.params =
      Except.ok fp) :
    (∀ e, sys.Verify w fp = (true, e) → (e = none ∨ e = some Error.ErrFileNotFound) →
      f.Test sys w =
        { res := { Succeeded := true, Failed := false, Changed := false },
          err := none, world := w } ∧
      f.Apply sys w =
        { res := { Succeeded := true, Failed := false, Changed := false },
          err := none, world := w }) ∧
    (∀ e, sys.Verify w fp = (false, e) → (e = none ∨ e = some Error.ErrFileNotFound) →
      f.Test sys w =
        { res := { Succeeded := true, Failed := false, Changed := true,
                   Notes := some [sys.Describe fp] },
          err := none, world := w } ∧
      (∀ w1, sys.Download w fp = (w1, none) →
        f.Apply sys w =
          { res := { Succeeded := true, Failed := false, Changed := true,
                     Notes := some [sys.Describe fp] },
            err := none, world := w1 }) ∧
      (∀ w1 e1, sys.Download w fp = (w1, some e1) →
        f.Apply sys w = { res := failed, err := some e1, world := w1 })) ∧
    (∀ valid e, sys.Verify w fp = (valid, some e) → e ≠ Error.ErrFileNotFound →
      f.Test sys w = { res := failed, err := some e, world := w } ∧
      f.Apply sys w = { res := failed, err := some e, world := w }) := by
  have hT : f.Test sys w = f.cached sys true w := by simp [File.Test, hm]
  have hA : f.Apply sys w = f.cached sys false w := by simp [File.Apply, hm]
  rw [hT, hA]
  refine ⟨?_, ?_, ?_⟩
  · intro e hv he
    rcases he with he | he <;> subst he <;>
      simp [File.cached, hs, hh, assertString, hs0, hh0, hfp, hv]
  · intro e hv he
    refine ⟨?_, ?_, ?_⟩
    · rcases he with he | he <;> subst he <;>
        simp [File.cached, hs, hh, assertString, hs0, hh0, hfp, hv]
    · intro w1 hd
      rcases he with he | he <;> subst he <;>
        simp [File.cached, hs, hh, assertString, hs0, hh0, hfp, hv, hd]
    · intro w1 e1 hd
      rcases he with he | he <;> subst he <;>
        simp [File.cached, hs, hh, assertString, hs0, hh0, hfp, hv, hd]
  · intro valid e hv he
    simp [File.cached, hs, hh, assertString, hs0, hh0, hfp, hv, he]

/-- C11 in the small world, on an empty cache: `Test` of `cached` with source
`https://x/y.tar` and hash `deadbeef` predicts a change and creates nothing;
`Apply` downloads to `/var/cache/grlx/deadbeef` and reports the change. -/
theorem C11_cached_outcomes_witness :
    File.Test smallSys cachedHashed [] =
      { res := { Succeeded := true, Failed := false, Changed := true,
                 Notes := some ["https://x/y.tar"] },
        err := none, world := [] } ∧
    File.Apply smallSys cachedHashed [] =
      { res := { Succeeded := true, Failed := false, Changed := true,
                 Notes := some ["https://x/y.tar"] },
        err := none,
        world := [{ path := "/var/cache/grlx/deadbeef", isDir := false, uid := 0, gid := 0,
                    mode := 0o644 }] } :=
  have h := (C11_cached_outcomes smallSys cachedHashed [] "https://x/y.tar" "deadbeef"
    ("https://x/y.tar", "/var/cache/grlx/deadbeef") rfl rfl (by decide) rfl (by decide)
    rfl).2.1 (some Error.ErrFileNotFound) (by decide) (Or.inr rfl)
  ⟨h.1, h.2.1 _ (by decide)⟩

/-- C12, the claim as stated fails: with `skip_verify = true`, `name =
/etc/app.conf` and `source = https://x/y.tar`, `dest()` is the cache directory
joined with `skip_app.conf`, the base name of `name`, not with `skip_y.tar`, the
base name of `source`; and with a `hash`, verification not skipped and no
`name`, `dest()` fails with `ErrMissingName`. -/
theorem C12_dest_keys_on_name :
    File.dest smallSys cachedSkipNamed = ("/var/cache/grlx/skip_app.conf", none) ∧
    filepathJoin smallSys.CacheDir ("skip_" ++ filepathBase "https://x/y.tar") =
      "/var/cache/grlx/skip_y.tar" ∧
    File.dest smallSys cachedHashed = ("", some Error.ErrMissingName) := by
  decide

/-- C12, amended. `File.dest()` requires `name` to be a non-empty string and fails
with `ErrMissingName` otherwise; with such a `name`, the path is `CacheDir`
joined with `"skip_" + basename(name)` when `skip_verify` is true, and `CacheDir`
joined with the `hash` param when verification is not skipped and `hash` is a
non-empty string. -/
theorem C12_dest_layout {σ π : Type} (sys : Sys σ π) (f : File) :
    (∀ name, f.params.lookup "name" = some (Value.str name) → name ≠ "" →
      (f.params.lookup "skip_verify" = some (Value.bool true) →
        f.dest sys = (filepathJoin sys.CacheDir ("skip_" ++ filepathBase name), none)) ∧
      (f.params.lookup "skip_verify" ≠ some (Value.bool true) →
        ∀ hash, f.params.lookup "hash" = some (Value.str hash) → hash ≠ "" →
          f.dest sys = (filepathJoin sys.CacheDir hash, none))) ∧
    ((assertString (f.params.lookup "name")).2 = false ∨
        (assertString (f.params.lookup "name")).1 = "" →
      f.dest sys = ("", some Error.ErrMissingName)) := by
  refine ⟨?_, ?_⟩
  · intro name hn hn0
    refine ⟨?_, ?_⟩
    · intro hsv
      simp [File.dest, hn, assertString, hn0, hsv, assertBool]
    · intro hsv hash hh hh0
      have hb : ¬ ((assertBool (f.params.lookup "skip_verify")).2 = true ∧
          (assertBool (f.params.lookup "skip_verify")).1 = true) := by
        rcases hl : f.params.lookup "skip_verify" with _ | v
        · simp [assertBool]
        · cases v <;> simp [assertBool]
          rename_i b
          cases b
          · rfl
          · exact absurd hl hsv
      rcases hab : assertBool (f.params.lookup "skip_verify") with ⟨sv, okSkip⟩
      rw [hab] at hb
      simp only [not_and] at hb
      have hb2 : (okSkip && sv) = false := by
        cases okSkip <;> cases sv <;> simp_all
      simp [File.dest, hn, assertString, hn0, hab, hb2, hh, hh0]
  · intro h
    rcases hnm : assertString (f.params.lookup "name") with ⟨name, ok⟩
    rw [hnm] at h
    simp only at h
    rcases h with h | h <;> simp [File.dest, hnm, h]

/-- C12, amended, at two steps named `/etc/app.conf`: one skipping verification,
one with the hash `deadbeef`. -/
theorem C12_dest_layout_witness :
    File.dest smallSys cachedSkipNamed = ("/var/cache/grlx/skip_app.conf", none) ∧
    File.dest smallSys cachedNamedHashed = ("/var/cache/grlx/deadbeef", none) :=
  ⟨((C12_dest_layout smallSys cachedSkipNamed).1 "/etc/app.conf" rfl (by decide)).1 rfl,
   ((C12_dest_layout smallSys cachedNamedHashed).1 "/etc/app.conf" rfl (by decide)).2
      (by simp [cachedNamedHashed, List.lookup]) "deadbeef" rfl (by decide)⟩

/-- The elements before the last and the last element of `segs ++ [last]`, as
`ResolveRecipeFilePath` reads them off `dirList`. -/
theorem take_getLast_snoc (segs : List String) (last : String) :
    (segs ++ [last]).take ((segs ++ [last]).length - 1) = segs ∧
    (segs ++ [last]).getLastD "" = last := by
  constructor
  · simp
  · cases segs <;> simp [List.getLastD]

/-- C13, the claim as stated fails: under the root `/recipes`, with `/recipes/a/b`
not existing, resolving `a.b.c` fails with the not-exist error `os.Stat`
returned, not with the not-a-directory error. -/
theorem C13_missing_directory_gives_not_exist :
    smallSys.Stat worldWithRoot "/recipes/a/b" = Except.error Error.ErrNotExist ∧
    ResolveRecipeFilePath smallSys ".grlx" true worldWithRoot "/recipes" "a.b.c" =
      some ("", some Error.ErrNotExist) ∧
    ResolveRecipeFilePath smallSys ".grlx" true worldWithRoot "/recipes" "a.b.c" ≠
      some ("", some (Error.errorf "path provided is not to a directory")) := by
  refine ⟨rfl, by decide, by decide⟩

/-- C13, amended. For a base path `R` that is valid and does not carry the recipe
extension, and a recipe name that splits at its dots into the segments `segs`
and the last segment `last` (for `a.b.c`: `a`, `b` and `c`), with `dir` the join
`R/segs…` and `file` the join `dir/last<ext>`: when `dir` is an existing directory
and `file` an existing non-directory, `ResolveRecipeFilePath` returns exactly
`file`; if `dir` does not exist it fails with the not-exist error of `os.Stat`;
if `dir` exists and is not a directory it fails with the not-a-directory
error; if `file` does not exist it fails with the not-exist error. -/
theorem C13_resolve_recipe_path {σ π : Type} (sys : Sys σ π) (grlxExt : String) (w : σ)
    (R : String) (recipeID : RecipeName) (segs : List String) (last : String)
    (hext : filepathExt R ≠ grlxExt)
    (hsplit : splitDots recipeID = segs ++ [last]) :
    (sys.Stat w (segs.foldl filepathJoin (filepathJoin1 R)) = Except.ok { IsDir := true } →
      sys.Stat w (filepathJoin (segs.foldl filepathJoin (filepathJoin1 R)) (last ++ grlxExt)) =
        Except.ok { IsDir := false } →
      ResolveRecipeFilePath sys grlxExt true w R recipeID =
        some (filepathJoin (segs.foldl filepathJoin (filepathJoin1 R)) (last ++ grlxExt),
          none)) ∧
    (sys.Stat w (segs.foldl filepathJoin (filepathJoin1 R)) =
        Except.error Error.ErrNotExist →
      ResolveRecipeFilePath sys grlxExt true w R recipeID =
        some ("", some Error.ErrNotExist)) ∧
    (sys.Stat w (segs.foldl filepathJoin (filepathJoin1 R)) = Except.ok { IsDir := false } →
      ResolveRecipeFilePath sys grlxExt true w R recipeID =
        some ("", some (Error.errorf "path provided is not to a directory"))) ∧
    (sys.Stat w (segs.foldl filepathJoin (filepathJoin1 R)) = Except.ok { IsDir := true } →
      sys.Stat w (filepathJoin (segs.foldl filepathJoin (filepathJoin1 R)) (last ++ grlxExt)) =
        Except.error Error.ErrNotExist →
      ResolveRecipeFilePath sys grlxExt true w R recipeID =
        some ("", some Error.ErrNotExist)) := by
  have h1 := (take_getLast_snoc segs last).1
  have h2 := (take_getLast_snoc segs last).2
  refine ⟨?_, ?_, ?_, ?_⟩
  · intro hd hf
    simp only [ResolveRecipeFilePath, if_neg hext, hsplit, h1, h2, hd, hf]
    simp
  · intro hd
    simp only [ResolveRecipeFilePath, if_neg hext, hsplit, h1, hd]
    simp
  · intro hd
    simp only [ResolveRecipeFilePath, if_neg hext, hsplit, h1, hd]
    simp
  · intro hd hf
    simp only [ResolveRecipeFilePath, if_neg hext, hsplit, h1, h2, hd, hf]
    simp

/-- C13, amended, in the small world: under `/recipes`, with the directory
`/recipes/a/b` and the file `/recipes/a/b/c.grlx`, the name `a.b.c` resolves to
`/recipes/a/b/c.grlx`. -/
theorem C13_resolve_recipe_path_witness :
    ResolveRecipeFilePath smallSys ".grlx" true worldWithRecipe "/recipes" "a.b.c" =
      some ("/recipes/a/b/c.grlx", none) :=
  (C13_resolve_recipe_path smallSys ".grlx" worldWithRecipe "/recipes" "a.b.c" ["a", "b"] "c" (by decide)
    (by decide)).1 rfl rfl

/-- C14 (the code departs from the claim). The claim: for every cooker `f` and
every method `m` listed by `Methods()`, `f.PropertiesForMethod(m)` returns the
schema declared for `m`. The switch of `PropertiesForMethod` is on `f.method`,
not on its parameter: the registered prototype `File{}` answers
`PropertiesForMethod("absent")` with a nil map and the error `method  undefined`,
and a cooker bound to `directory` answers it with the schema of `directory`;
only a cooker bound to `absent` itself returns the schema of `absent`. -/
theorem C14_PropertiesForMethod_ignores_its_argument :
    "absent" ∈ (File.Methods filePrototype).2 ∧
    File.PropertiesForMethod filePrototype "absent" =
      (none, some (Error.errorf "method  undefined")) ∧
    File.PropertiesForMethod directoryStep "directory" ≠ (some [("name", "string")], none) ∧
    File.PropertiesForMethod directoryStep "absent" =
      File.PropertiesForMethod directoryStep "directory" ∧
    File.PropertiesForMethod absentStep "absent" = (some [("name", "string")], none) := by
  decide

/-- C15 (the code departs from the claim). The claim: with `name = ""` the
methods fail with `ErrMissingName` and access no file. `filepath.Clean("")` is
`"."`, so the guard `name == ""` that follows the cleaning never fires: on a
world holding the directory `.`, `exists` stats `.` and succeeds, `absent` in
`Test` stats `.` and predicts a change, and `prepend` returns the error of
`undef()`. -/
theorem C15_empty_name_is_cleaned_to_dot :
    filepathClean "" = "." ∧
    File.Test smallSys existsEmptyName worldWithDot =
      { res := { Succeeded := true, Failed := false, Changed := false,
                 Notes := some ["file . exists"] },
        err := none, world := worldWithDot } ∧
    File.Test smallSys absentEmptyName worldWithDot =
      { res := { Succeeded := true, Failed := false, Changed := true, Notes := none },
        err := none, world := worldWithDot } ∧
    (File.Apply smallSys prependEmptyName worldWithDot).err =
      some (Error.errorf "method prepend undefined") := by
  refine ⟨by decide, rfl, rfl, by decide⟩

/-- C16 (the code departs from the claim). The claim: `directory` on a valid name,
when every sub-step succeeds, returns `Succeeded = true` and a nil error. The
last statement of `File.directory` is `return f.undef()`: `Apply` for `/srv/app`
on an empty filesystem creates the directory and returns `Failed = true` with
the error `method directory undefined`. -/
theorem C16_directory_ends_in_undef :
    File.Apply smallSys directoryStep [] =
      { res := { Succeeded := false, Failed := true, Changed := false, Notes := none },
        err := some (Error.errorf "method directory undefined"),
        world := [{ path := "/srv/app", isDir := true, uid := 0, gid := 0, mode := 0o755 }] } := by
  rfl

/-- C17 (the code departs from the claim). The claim: on a `dir_mode` that is not
an octal number the call aborts and performs no chmod with that mode. The
error of `strconv.ParseUint` is discarded: for `dir_mode = "rwx"` the parse
gives `0` with a syntax error, and `Apply` goes on to `os.Chmod(name, 0)`, which
leaves the new directory with mode `0`; the error returned is the one of
`undef()`, not the parse error. -/
theorem C17_invalid_mode_is_applied_as_zero :
    parseUint "rwx" 8 32 = (0, some (Error.external "invalid syntax")) ∧
    File.Apply smallSys directoryBadMode [] =
      { res := { Succeeded := false, Failed := true, Changed := false, Notes := none },
        err := some (Error.errorf "method directory undefined"),
        world := [{ path := "/srv/app", isDir := true, uid := 0, gid := 0, mode := 0 }] } := by
  refine ⟨by decide, rfl⟩

/-- The registry after the loop of `RegisterAllMethods` over the methods `ms`. -/
theorem foldl_setMethod {C : Type} (name : String) (step : C) (ms : List String)
    (R : Registry C) (k : String) :
    (ms.foldl (fun m method => setMethod m name method step) R) k =
      if k = name then
        (R name).map (fun r => fun x => if x ∈ ms then some step else r x)
      else R k := by
  induction ms generalizing R with
  | nil =>
    by_cases hk : k = name
    · subst hk; simp
    · simp [hk]
  | cons a ms ih =>
    rw [List.foldl_cons, ih]
    by_cases hk : k = name
    · subst hk
      simp only [if_true, setMethod, Option.map_map]
      congr 1
      funext r x
      simp only [Function.comp, List.mem_cons]
      by_cases hx : x ∈ ms
      · simp [hx]
      · by_cases hxa : x = a <;> simp [hx, hxa]
    · simp [hk, setMethod]

/-- The registry after `RegisterAllMethods` of a prototype named `name` with the
methods `ms`. -/
theorem registerAllMethods_apply {C : Type} (ops : CookerOps C) (R : Registry C) (p : C)
    (name : String) (ms : List String) (hM : ops.Methods p = (name, ms)) (k : String) :
    RegisterAllMethods ops R p k =
      if k = name then
        some (fun x => if x ∈ ms then some p else ((R name).getD (fun _ => none)) x)
      else R k := by
  simp only [RegisterAllMethods, hM]
  rw [foldl_setMethod]
  by_cases hk : k = name
  · subst hk
    cases hR : R k with
    | none => simp [hR]
    | some r => simp [hR]
  · simp only [if_neg hk]
    split <;> simp [hk]

/-- C18. For every registry state and prototypes `p1`, `p2` with the same
ingredient name, after registering `p1` and then `p2` the ingredient has an
entry in which every method declared by `p2` maps to `p2` and every method
declared only by `p1` still maps to `p1`; `NewRecipeCooker` dispatches
accordingly. `RegisterAllMethods` is total: no error or panic occurs. -/
theorem C18_register_last_write_wins {C : Type} (ops : CookerOps C) (ingMap : Registry C)
    (p1 p2 : C) (name : String) (ms1 ms2 : List String)
    (h1 : ops.Methods p1 = (name, ms1)) (h2 : ops.Methods p2 = (name, ms2)) :
    ∃ r, RegisterAllMethods ops (RegisterAllMethods ops ingMap p1) p2 name = some r ∧
      (∀ m ∈ ms2, r m = some p2) ∧
      (∀ m ∈ ms1, m ∉ ms2 → r m = some p1) ∧
      (∀ m id params, m ∈ ms2 →
        NewRecipeCooker ops (RegisterAllMethods ops (RegisterAllMethods ops ingMap p1) p2)
          id name m params = ops.Parse p2 id m params) ∧
      (∀ m id params, m ∈ ms1 → m ∉ ms2 →
        NewRecipeCooker ops (RegisterAllMethods ops (RegisterAllMethods ops ingMap p1) p2)
          id name m params = ops.Parse p1 id m params) := by
  have hr : RegisterAllMethods ops (RegisterAllMethods ops ingMap p1) p2 name =
      some (fun x => if x ∈ ms2 then some p2 else
        if x ∈ ms1 then some p1 else ((ingMap name).getD (fun _ => none)) x) := by
    rw [registerAllMethods_apply ops _ p2 name ms2 h2,
      registerAllMethods_apply ops _ p1 name ms1 h1]
    simp
  refine ⟨_, hr, ?_, ?_, ?_, ?_⟩
  · intro m hm
    simp [hm]
  · intro m hm hn
    simp [hm, hn]
  · intro m id params hm
    simp [NewRecipeCooker, hr, hm]
  · intro m id params hm hn
    simp [NewRecipeCooker, hr, hm, hn]

/-- C18 at two prototypes named `x`, the first declaring `m1`, `m2` and the second
`m2`, `m3`, registered in this order on the empty registry. -/
theorem C18_register_last_write_wins_witness :
    ∃ r, RegisterAllMethods protoOps
        (RegisterAllMethods protoOps (emptyRegistry Proto) protoFirst) protoSecond "x" =
        some r ∧
      (∀ m ∈ ["m2", "m3"], r m = some protoSecond) ∧
      (∀ m ∈ ["m1", "m2"], m ∉ ["m2", "m3"] → r m = some protoFirst) ∧
      (∀ m id params, m ∈ ["m2", "m3"] →
        NewRecipeCooker protoOps
          (RegisterAllMethods protoOps
            (RegisterAllMethods protoOps (emptyRegistry Proto) protoFirst) protoSecond)
          id "x" m params = protoOps.Parse protoSecond id m params) ∧
      (∀ m id params, m ∈ ["m1", "m2"] → m ∉ ["m2", "m3"] →
        NewRecipeCooker protoOps
          (RegisterAllMethods protoOps
            (RegisterAllMethods protoOps (emptyRegistry Proto) protoFirst) protoSecond)
          id "x" m params = protoOps.Parse protoFirst id m params) :=
  C18_register_last_write_wins protoOps (emptyRegistry Proto) protoFirst protoSecond "x"
    ["m1", "m2"] ["m2", "m3"] rfl rfl

/-- C19. For every list of strings `A`, `stringSliceIsSubset(A, A)` returns
`(true, [])`. -/
theorem C19_subset_of_itself (a : List String) : stringSliceIsSubset a a = (true, []) := by
  unfold stringSliceIsSubset
  induction a with
  | nil => rfl
  | cons x xs ih => simpa [stringSliceIsSubsetLoop] using ih

/-- C20. For every starter list, with or without repeated names,
`collectAllIncludes` returns a nil error and a list in which no name occurs
more than once and every starter name occurs. The order in which `range`
visits the map is any order that visits every key once. -/
theorem C20_collectAllIncludes_deduplicates
    (rangeOrder : List RecipeName → List RecipeName)
    (hrange : ∀ ks, (rangeOrder ks).Perm ks) (starter : List RecipeName) :
    (collectAllIncludes rangeOrder starter).2 = none ∧
    (collectAllIncludes rangeOrder starter).1.Nodup ∧
    ∀ s ∈ starter, s ∈ (collectAllIncludes rangeOrder starter).1 := by
  refine ⟨rfl, ?_, ?_⟩
  · simp only [collectAllIncludes, foldl_snoc_eq, List.nil_append]
    rw [(hrange _).nodup_iff]
    exact nodup_keys_foldl_mapAssign starter [] (by simp)
  · intro s hs
    simp only [collectAllIncludes, foldl_snoc_eq, List.nil_append]
    rw [(hrange _).mem_iff, mem_keys_foldl_mapAssign]
    exact Or.inr hs

/-- C20 with `range` visiting the keys last to first and the starters `web`,
`db`, `web`. -/
theorem C20_collectAllIncludes_deduplicates_witness :
    (collectAllIncludes List.reverse ["web", "db", "web"]).2 = none ∧
    (collectAllIncludes List.reverse ["web", "db", "web"]).1.Nodup ∧
    ∀ s ∈ ["web", "db", "web"],
      s ∈ (collectAllIncludes List.reverse ["web", "db", "web"]).1 :=
  C20_collectAllIncludes_deduplicates List.reverse (fun ks => List.reverse_perm ks)
    ["web", "db", "web"]

/-- The cases `a[0] == b[0]`, `a[0] < b[0]` and `a[0] > b[0]` of the `switch` exhaust
the order of strings. -/
theorem string_gt_of_ne_of_not_lt (x y : String) (hne : x ≠ y) (hlt : ¬ x.data < y.data) :
    y.data < x.data := by
  have h1 : ¬ x < y := fun h => hlt (String.lt_iff_toList_lt.mp h)
  rcases lt_trichotomy x y with h | h | h
  · exact absurd h h1
  · exact absurd h hne
  · exact String.lt_iff_toList_lt.mp h

/-- With more fuel than `b` has elements the loop of `stringSliceIsSubset` returns,
and returns what `stringSliceIsSubsetLoop` computes: every iteration that does
not return removes an element of `b`. -/
theorem stringSliceIsSubsetSteps_eq (fuel : Nat) (a b missing : List String)
    (h : b.length < fuel) :
    stringSliceIsSubsetSteps fuel a b missing = some (stringSliceIsSubsetLoop a b missing) := by
  induction fuel generalizing a b missing with
  | zero => omega
  | succ n ih =>
    cases a with
    | nil => simp [stringSliceIsSubsetSteps, stringSliceIsSubsetLoop]
    | cons a0 a =>
      cases b with
      | nil => simp [stringSliceIsSubsetSteps, stringSliceIsSubsetLoop]
      | cons b0 b =>
        have hb : b.length < n := by simp at h; omega
        simp only [stringSliceIsSubsetSteps, stringSliceIsSubsetLoop]
        by_cases h1 : a0 = b0
        · simp only [h1, if_true]
          exact ih _ _ _ hb
        · simp only [h1, if_false]
          by_cases h2 : a0.data < b0.data
          · simp only [h2, if_true]
            by_cases h3 : (a0 :: a).length = 1
            · simp only [h3, if_true]
            · simp only [h3, if_false]
              exact ih _ _ _ hb
          · simp only [h2, if_false, string_gt_of_ne_of_not_lt a0 b0 h1 h2, if_true]
            exact ih _ _ _ hb

/-- What the loop of `stringSliceIsSubset` adds to `missing`: a subsequence of `a`
that holds every element of `a` absent from `b`; the boolean tells whether
the resulting slice is empty. -/
theorem stringSliceIsSubsetLoop_spec (a b missing : List String) :
    ∃ m, stringSliceIsSubsetLoop a b missing =
        ((missing ++ m).length == 0, missing ++ m) ∧
      m.Sublist a ∧ ∀ x ∈ a, x ∉ b → x ∈ m := by
  induction b generalizing a missing with
  | nil =>
    cases a with
    | nil => exact ⟨[], by simp [stringSliceIsSubsetLoop], List.Sublist.refl _, by simp⟩
    | cons a0 a =>
      exact ⟨a0 :: a, by simp [stringSliceIsSubsetLoop], List.Sublist.refl _,
        fun x hx _ => hx⟩
  | cons b0 b ih =>
    cases a with
    | nil => exact ⟨[], by simp [stringSliceIsSubsetLoop], List.Sublist.refl _, by simp⟩
    | cons a0 a =>
      simp only [stringSliceIsSubsetLoop]
      by_cases h1 : a0 = b0
      · simp only [h1, if_true]
        obtain ⟨m, hm, hsub, hmem⟩ := ih a missing
        refine ⟨m, hm, hsub.cons _, ?_⟩
        intro x hx hxb
        rcases List.mem_cons.mp hx with hx0 | hxa
        · exact absurd (List.mem_cons.mpr (Or.inl hx0)) hxb
        · exact hmem x hxa (fun h => hxb (List.mem_cons_of_mem _ h))
      · simp only [h1, if_false]
        by_cases h2 : a0.data < b0.data
        · simp only [h2, if_true]
          by_cases h3 : (a0 :: a).length = 1
          · simp only [h3, if_true]
            have ha : a = [] := by
              cases a with
              | nil => rfl
              | cons _ _ => simp at h3
            subst ha
            exact ⟨[a0], rfl, List.Sublist.refl _, fun x hx _ => hx⟩
          · simp only [h3, if_false]
            obtain ⟨m, hm, hsub, hmem⟩ := ih a (missing ++ [a0])
            refine ⟨a0 :: m, ?_, hsub.cons₂ _, ?_⟩
            · rw [hm]; simp
            · intro x hx hxb
              rcases List.mem_cons.mp hx with hx0 | hxa
              · exact List.mem_cons.mpr (Or.inl hx0)
              · exact List.mem_cons_of_mem _
                  (hmem x hxa (fun h => hxb (List.mem_cons_of_mem _ h)))
        · simp only [h2, if_false]
          obtain ⟨m, hm, hsub, hmem⟩ := ih (a0 :: a) missing
          exact ⟨m, hm, hsub, fun x hx hxb =>
            hmem x hx (fun h => hxb (List.mem_cons_of_mem _ h))⟩

/-- C21. For all lists of strings `A` and `B`, sorted or not,
`stringSliceIsSubset(A, B)` terminates (its loop returns within `len(B) + 1`
iterations, with the result of `stringSliceIsSubset`); its boolean result is
true exactly when the returned missing list is empty; the missing list is a
subsequence of `A`; every element of `A` that does not occur in `B` occurs in the
missing list; hence a true result implies that every element of `A` occurs in
`B`. -/
theorem C21_subset_check_on_any_lists (a b : List String) :
    stringSliceIsSubsetSteps (b.length + 1) a b [] = some (stringSliceIsSubset a b) ∧
    (∀ fuel, b.length < fuel →
      stringSliceIsSubsetSteps fuel a b [] = some (stringSliceIsSubset a b)) ∧
    ((stringSliceIsSubset a b).1 = true ↔ (stringSliceIsSubset a b).2 = []) ∧
    (stringSliceIsSubset a b).2.Sublist a ∧
    (∀ x ∈ a, x ∉ b → x ∈ (stringSliceIsSubset a b).2) ∧
    ((stringSliceIsSubset a b).1 = true → ∀ x ∈ a, x ∈ b) := by
  obtain ⟨m, hm, hsub, hmem⟩ := stringSliceIsSubsetLoop_spec a b []
  have hres : stringSliceIsSubset a b = (m.length == 0, m) := by
    simpa [stringSliceIsSubset] using hm
  refine ⟨?_, ?_, ?_, ?_, ?_, ?_⟩
  · exact stringSliceIsSubsetSteps_eq _ a b [] (Nat.lt_succ_self _)
  · intro fuel hf
    exact stringSliceIsSubsetSteps_eq fuel a b [] hf
  · rw [hres]
    simp
  · rw [hres]; exact hsub
  · rw [hres]; exact hmem
  · rw [hres]
    intro ht x hx
    by_contra hxb
    have hxm := hmem x hx hxb
    have hnil : m = [] := by simpa using ht
    rw [hnil] at hxm
    simp at hxm

/-- C21 at the unsorted slices `A = ["b", "a", "c"]`, `B = ["c", "b"]`: the loop
returns within three iterations and `"a"`, absent from `B`, is reported
missing; and at `A = ["b", "c"]`, `B = ["a", "b", "c"]`, where the result is true,
every element of `A` occurs in `B`. -/
theorem C21_subset_check_on_any_lists_witness :
    stringSliceIsSubsetSteps 3 ["b", "a", "c"] ["c", "b"] [] =
      some (stringSliceIsSubset ["b", "a", "c"] ["c", "b"]) ∧
    "a" ∈ (stringSliceIsSubset ["b", "a", "c"] ["c", "b"]).2 ∧
    (∀ x ∈ ["b", "c"], x ∈ ["a", "b", "c"]) :=
  ⟨(C21_subset_check_on_any_lists ["b", "a", "c"] ["c", "b"]).2.1 3 (by decide),
   (C21_subset_check_on_any_lists ["b", "a", "c"] ["c", "b"]).2.2.2.2.1 "a" (by decide) (by decide),
   (C21_subset_check_on_any_lists ["b", "c"] ["a", "b", "c"]).2.2.2.2.2 (by decide)⟩

end Grlx
